import Mathlib

/-!
AsyncWiFiSettings: settings parameters, form submission and the connect loop.

A shallow embedding of `src/AsyncWiFiSettings.cpp`.

* An Arduino `String` is a list of characters (`Str`); one `Char` stands for one `char`.
* The flash filesystem (`SPIFFS`) is a map from file name to content, together with the
  ways in which its primitives can fail (`open` for writing, `remove`, a short `print`).
* The settings object is an explicit state (`Settings`); the HTTP request is the list of its
  form fields.
* `connect()` and `portal()` are a step machine over an injected clock.
-/

namespace AsyncWiFiSettings

/-- Arduino `String`. -/
abbrev Str := List Char

/-! ## The filesystem collaborator -/

/-- The `SPIFFS` filesystem: the content of every existing file, and the failures the three
primitives used by the source can show: `open(fn, "w")` giving an invalid `File`,
`remove(fn)` returning false, and `print` writing at most `writeCap` bytes. -/
structure FS where
  file : Str → Option Str
  openFails : Str → Bool
  removeFails : Str → Bool
  writeCap : Option Nat

/-- Replace the entry of one file name. -/
def FS.setFile (fs : FS) (fn : Str) (c : Option Str) : FS :=
  { fs with file := fun g => if g = fn then c else fs.file g }

/-- The call `ESPFS.exists(fn)`. -/
def FS.fileExists (fs : FS) (fn : Str) : Bool := (fs.file fn).isSome

/-- The call `ESPFS.remove(fn)`: its result and the filesystem afterwards. -/
def FS.remove (fs : FS) (fn : Str) : Bool × FS :=
  if fs.removeFails fn then (false, fs) else (true, fs.setFile fn none)

/-- The call `ESPFS.open(fn, "w")`: `none` is the invalid `File`; on success the file exists and is
empty. -/
def FS.openW (fs : FS) (fn : Str) : Option FS :=
  if fs.openFails fn then none else some (fs.setFile fn (some []))

/-- The call `f.print(content)` on the file opened as `fn`: the number of bytes written, and the
filesystem with those bytes appended. -/
def FS.print (fs : FS) (fn content : Str) : Nat × FS :=
  let w := match fs.writeCap with
    | none => content.length
    | some k => min k content.length
  (w, fs.setFile fn (some ((fs.file fn).getD [] ++ content.take w)))

/-- A filesystem on which no primitive fails. -/
def FS.working (fs : FS) : Prop :=
  (∀ fn, fs.openFails fn = false) ∧ (∀ fn, fs.removeFails fn = false) ∧ fs.writeCap = none

/-- The filesystem with no file and no failure. -/
def FS.blank : FS :=
  { file := fun _ => none, openFails := fun _ => false, removeFails := fun _ => false,
    writeCap := none }

/-! ## Helpers of the source -/

/-- The helper `slurp(fn)`: the content of the file, the empty string when it cannot be opened. -/
def slurp (fs : FS) (fn : Str) : Str := (fs.file fn).getD []

/-- The helper `spurt(fn, content)`: the result and the filesystem afterwards. -/
def spurt (fs : FS) (fn content : Str) : Bool × FS :=
  if content.isEmpty then
    if fs.fileExists fn then fs.remove fn else (true, fs)
  else
    match fs.openW fn with
    | none => (false, fs)
    | some fs1 =>
      let r := fs1.print fn content
      (r.1 == content.length, r.2)

/-! ## Parameters -/

/-- The variants of `AsyncWiFiSettingsParameter`. -/
inductive Kind
  | dropdown | string | password | int | float | bool | html
  deriving DecidableEq, Repr

/-- The 32-bit `long` of the ESP targets. -/
def LONG_MIN : Int := -2147483648

/-- The largest `long`. -/
def LONG_MAX : Int := 2147483647

/-- The struct `AsyncWiFiSettingsParameter`, with the variant as a tag and the `options` of
the dropdown variant. -/
structure Param where
  kind : Kind
  name : Str := []
  label : Str := []
  value : Str := []
  init : Str := []
  min : Int := LONG_MIN
  max : Int := LONG_MAX
  options : List Str := []

/-- The member `filename()`. -/
def Param.filename (p : Param) : Str := '/' :: p.name

/-- The member `store()`: its result and the filesystem afterwards. -/
def Param.store (p : Param) (fs : FS) : Bool × FS :=
  if p.name.length ≠ 0 then spurt fs p.filename p.value else (true, fs)

/-- The member `fill()`: the parameter with the value loaded from the filesystem. -/
def Param.fill (p : Param) (fs : FS) : Param :=
  if p.name.length ≠ 0 then { p with value := slurp fs p.filename } else p

/-- C library `isspace` in the "C" locale. -/
def isspace (c : Char) : Bool :=
  c = ' ' || c = '\t' || c = '\n' || c = Char.ofNat 11 || c = Char.ofNat 12 || c = '\r'

/-- Arduino `String::trim()`: drops the white space at both ends. -/
def trim (s : Str) : Str :=
  ((s.dropWhile isspace).reverse.dropWhile isspace).reverse

/-- The virtual `set(v)` of each variant. -/
def Param.set (p : Param) (v : Str) : Param :=
  match p.kind with
  | Kind.dropdown => { p with value := v }
  | Kind.string => { p with value := v }
  | Kind.password =>
    let trimmed := trim v
    if trimmed.length ≠ 0 then { p with value := trimmed } else p
  | Kind.int => { p with value := v }
  | Kind.float => { p with value := v }
  | Kind.bool => { p with value := if v.length ≠ 0 then ['1'] else ['0'] }
  | Kind.html => p

/-! ## Numbers as text -/

/-- The decimal digit `d` as a character. -/
def digitChar (d : Nat) : Char := Char.ofNat (48 + d)

/-- The decimal digits of `n`, most significant first; the first argument bounds the number
of digits. -/
def natDigits : Nat → Nat → Str
  | 0, _ => []
  | f + 1, n => if n < 10 then [digitChar n] else natDigits f (n / 10) ++ [digitChar (n % 10)]

/-- Arduino `String(i)` for a number that is not negative: its decimal representation. -/
def natToStr (n : Nat) : Str := natDigits (n + 1) n

/-- Arduino `String(long)`, the conversion behind the assignment of a `long` to a `String`:
the decimal representation, with a minus sign for a negative number. -/
def longToStr (d : Int) : Str :=
  if d < 0 then '-' :: natToStr d.natAbs else natToStr d.natAbs

/-- C library `isdigit`. -/
def isdigit (c : Char) : Bool := decide (48 ≤ c.toNat) && decide (c.toNat ≤ 57)

/-- The number written by a sequence of decimal digits. -/
def digitsVal (s : Str) : Nat := s.foldl (fun a c => 10 * a + (c.toNat - 48)) 0

/-- Saturation of a number to the range of `long`. -/
def clampLong (z : Int) : Int :=
  if z < LONG_MIN then LONG_MIN else if LONG_MAX < z then LONG_MAX else z

/-- C library `atol` (`strtol` in base 10): leading white space, an optional sign, then the
longest run of digits; the result saturates at the bounds of `long`. -/
def atol (s : Str) : Int :=
  let t := s.dropWhile isspace
  match t with
  | '-' :: r => clampLong (-(digitsVal (r.takeWhile isdigit) : Int))
  | '+' :: r => clampLong (digitsVal (r.takeWhile isdigit) : Int)
  | _ => clampLong (digitsVal (t.takeWhile isdigit) : Int)

/-- Arduino `String::toInt()`. -/
def toInt (s : Str) : Int := atol s

/-! ## Markup -/

/-- Whether `html_entities` writes the character as a numeric entity: the control characters
and the space (`c < '!'`, `char` being unsigned on the ESP targets), the five characters of
HTML syntax, and 0x7f. -/
def needsEntity (c : Char) : Bool :=
  decide (c.toNat < 33) || c = '"' || c = '&' || c = Char.ofNat 39 || c = '<' || c = '>'
    || decide (c.toNat = 127)

/-- The helper `html_entities(raw)`. -/
def html_entities : Str → Str
  | [] => []
  | c :: cs =>
    (if needsEntity c then "&#".toList ++ natToStr c.toNat ++ ";".toList else [c])
      ++ html_entities cs

/-- The branch of Arduino `String::replace` taken when the replacement is not longer than
`find`: the occurrences are replaced from the left, the search going on behind each one. The
first argument counts the characters of the occurrence just found that are still to be
passed over. -/
def replaceL (find rep : Str) : Nat → Str → Str
  | _, [] => []
  | k + 1, _ :: cs => replaceL find rep k cs
  | 0, c :: cs =>
    if find.isPrefixOf (c :: cs) then rep ++ replaceL find rep (find.length - 1) cs
    else c :: replaceL find rep 0 cs

/-- The branch of Arduino `String::replace` taken when the replacement is longer than `find`:
the loop over `lastIndexOf` replaces from the right, each search looking at the text as
already rewritten to its right. -/
def replaceR (find rep : Str) : Str → Str
  | [] => []
  | c :: cs =>
    if find.isPrefixOf (c :: replaceR find rep cs)
    then rep ++ (c :: replaceR find rep cs).drop find.length
    else c :: replaceR find rep cs

/-- Arduino `String::replace(find, replace)` of the core library (`WString.cpp`), as a function
of the string it changes: nothing happens on an empty string or an empty `find`; otherwise
the branch is chosen by the lengths of `find` and of the replacement. -/
def replace (s find rep : Str) : Str :=
  if s.length = 0 ∨ find.length = 0 then s
  else if rep.length ≤ find.length then replaceL find rep 0 s
  else replaceR find rep s

/-- The first loop of `AsyncWiFiSettingsDropdown::html()`, run when the value is empty: the
hidden entry for every index whose decimal text equals `init`. -/
def dropdownHidden (init : Str) : Nat → List Str → Str
  | _, [] => []
  | i, o :: os =>
    (if natToStr i = init then
      replace "<option value='' disabled selected hidden>{name}</option>".toList
        "{name}".toList o
    else [])
    ++ dropdownHidden init (i + 1) os

/-- One `<option>` of the second loop of `AsyncWiFiSettingsDropdown::html()`. -/
def dropdownOption (value : Str) (i : Nat) (o : Str) : Str :=
  replace
    (replace
      (replace "<option value='{code}'{sel}>{name}</option>".toList "{code}".toList
        (natToStr i))
      "{name}".toList o)
    "{sel}".toList (if natToStr i = value then " selected".toList else [])

/-- The second loop of `AsyncWiFiSettingsDropdown::html()`. -/
def dropdownOptions (value : Str) : Nat → List Str → Str
  | _, [] => []
  | i, o :: os => dropdownOption value i o ++ dropdownOptions value (i + 1) os

/-- The opening of the markup of a dropdown, with its three placeholders filled. -/
def dropdownHead (p : Param) : Str :=
  replace
    (replace
      (replace "<p><label>{label}:<br><select name='{name}' value='{value}'>".toList
        "{name}".toList (html_entities p.name))
      "{value}".toList (html_entities p.value))
    "{label}".toList (html_entities p.label)

/-- The member `AsyncWiFiSettingsDropdown::html()`. -/
def dropdownHtml (p : Param) : Str :=
  dropdownHead p
    ++ (if p.value = [] then dropdownHidden p.init 0 p.options else [])
    ++ dropdownOptions p.value 0 p.options
    ++ "</select></label>".toList

/-- The helper `secure(raw)`: one space for every character of `raw`. -/
def secure : Str → Str
  | [] => []
  | _ :: cs => ' ' :: secure cs

/-- The member `AsyncWiFiSettingsString::html()`. -/
def stringHtml (p : Param) : Str :=
  replace
    (replace
      (replace
        (replace
          "<p><label>{label}:<br><input name='{name}' value='{value}' placeholder='{init}'></label>".toList
          "{name}".toList (html_entities p.name))
        "{value}".toList (html_entities p.value))
      "{init}".toList (html_entities p.init))
    "{label}".toList (html_entities p.label)

/-- The member `AsyncWiFiSettingsPassword::html()`. -/
def passwordHtml (p : Param) : Str :=
  replace
    (replace
      (replace
        (replace
          "<p><label>{label}:<br><input type='password' name='{name}' value='{value}' placeholder='{init}'></label>".toList
          "{name}".toList (html_entities p.name))
        "{value}".toList (html_entities (secure p.value)))
      "{init}".toList (html_entities p.init))
    "{label}".toList (html_entities p.label)

/-- The characters that markup cannot carry as text, as the specification lists them: the
five characters of HTML syntax, the space and the control characters below 0x21, and 0x7f. -/
def isMarkupChar (c : Char) : Bool :=
  decide (c ∈ ['<', '>', '"', Char.ofNat 39, '&']) || decide (c.toNat < 0x21)
    || decide (c.toNat = 0x7f)

/-- The escaped text as the specification describes it: the characters of the input in
order, each copied unchanged unless it is a markup character, which is written as the
numeric entity of its decimal code. -/
def entitiesSpec (raw : Str) : Str :=
  raw.foldr (fun c out =>
    (if isMarkupChar c then '&' :: '#' :: (natToStr c.toNat ++ [';']) else [c]) ++ out) []

/-! ### Reading the markup -/

/-- Whether `pat` occurs somewhere in the text. -/
def hasInfix (pat : Str) : Str → Bool
  | [] => pat.isEmpty
  | c :: cs => pat.isPrefixOf (c :: cs) || hasInfix pat cs

/-- The text of the tag that starts here: everything before the first `>`. -/
def tagText (s : Str) : Str := s.takeWhile (fun c => c ≠ '>')

/-- Whether an `<option` start tag begins here and carries the attribute `selected`. -/
def isSelectedOption (s : Str) : Bool :=
  "<option".toList.isPrefixOf s && hasInfix " selected".toList (tagText s)

/-- The number of `<option` start tags of the markup that are marked `selected`. -/
def countSelected : Str → Nat
  | [] => 0
  | c :: cs => (if isSelectedOption (c :: cs) then 1 else 0) + countSelected cs

/-- Every `<` of the text is followed by a character, and that character is neither `o` nor
an opening brace: no `<option` starts in the text. -/
def tagsOk : Str → Bool
  | [] => true
  | c :: cs =>
    (if c = '<' then
      match cs with
      | [] => false
      | x :: _ => x ≠ 'o' && x ≠ Char.ofNat 123
    else true) && tagsOk cs

/-! ## The form submission handler -/

/-- The form fields of a request, in the order received. -/
abbrev Request := List (Str × Str)

/-- The call `request->arg(name)`: the value of the first field of that name, the empty string when
there is none. -/
def arg (req : Request) (name : Str) : Str :=
  match req.find? (fun kv => decide (kv.1 = name)) with
  | some kv => kv.2
  | none => []

/-- The marker shown in place of a stored WiFi password. -/
def maskingMarker : Str := "##**##**##**".toList

/-- What the POST handler leaves behind: the `ok` flag that selects the response, the
filesystem and the registered parameters. -/
structure PostResult where
  ok : Bool
  fs : FS
  params : List Param

/-- The `if (configureWifi)` block of the POST handler: the reserved fields `ssid` and
`password`. -/
def postWifi (req : Request) (ok : Bool) (fs : FS) : Bool × FS :=
  let ssid := arg req "ssid".toList
  let r1 : Bool × FS :=
    if !ssid.isEmpty then
      let w := spurt fs "/wifi-ssid".toList ssid
      (if !w.1 then false else ok, w.2)
    else (ok, fs)
  let pw := arg req "password".toList
  if !pw.isEmpty && pw != maskingMarker then
    let w := spurt r1.2 "/wifi-password".toList pw
    (if !w.1 then false else r1.1, w.2)
  else r1

/-- The `if (AsyncWiFiSettingsLanguage::multiple())` block of the POST handler. -/
def postLanguage (req : Request) (ok : Bool) (fs : FS) : Bool × FS :=
  let w := spurt fs "/AsyncWiFiSettings-language".toList (arg req "language".toList)
  (if !w.1 then false else ok, w.2)

/-- The loop `for (auto &p: params)` of the POST handler, with the flag `ok` it updates. -/
def postParams (req : Request) : List Param → Bool → FS → PostResult
  | [], ok, fs => { ok := ok, fs := fs, params := [] }
  | p :: ps, ok, fs =>
    let p1 := p.set (arg req p.name)
    let r := p1.store fs
    let rest := postParams req ps (if !r.1 then false else ok) r.2
    { rest with params := p1 :: rest.params }

/-- The part of the handler of `POST /` before the loop over the parameters: the reserved
fields. `configureWifi` is the static flag set by `httpSetup`, `multiple` the result of
`AsyncWiFiSettingsLanguage::multiple()`. -/
def postReserved (configureWifi multiple : Bool) (req : Request) (fs : FS) : Bool × FS :=
  let a : Bool × FS := if configureWifi then postWifi req true fs else (true, fs)
  if multiple then postLanguage req a.1 a.2 else a

/-- The handler of `POST /`. The flag `ok` of the result selects between the redirect and the
500 response. -/
def postRoot (configureWifi multiple : Bool) (req : Request) (params : List Param) (fs : FS) :
    PostResult :=
  postParams req params (postReserved configureWifi multiple req fs).1
    (postReserved configureWifi multiple req fs).2

/-- The `store()` calls that applying a submission to every registered parameter makes, in
registration order: for each parameter its state after `set`, the result of its `store()`
and the filesystem after it. No call depends on the result of an earlier one. -/
def storeCalls (req : Request) : List Param → FS → List (Param × Bool × FS)
  | [], _ => []
  | p :: ps, fs =>
    let p1 := p.set (arg req p.name)
    (p1, (p1.store fs).1, (p1.store fs).2) :: storeCalls req ps (p1.store fs).2

/-- The filesystem after a sequence of calls that started on `fs`. -/
def lastFS (fs : FS) : List (Param × Bool × FS) → FS
  | [] => fs
  | c :: cs => lastFS c.2.2 cs

/-! ## The settings object and registration -/

/-- The texts of `AsyncWiFiSettings_strings.h` that label the parameters registered by
`begin()`. -/
structure Texts where
  portal_wpa : Str
  portal_password : Str

/-- What the build and the hardware fix: whether `PORTAL_PASSWORD` is defined, the texts of
the selected language and the successive results of `random()`. -/
structure Build where
  portalPassword : Bool
  texts : Texts
  random : Nat → Nat

/-- The state of `AsyncWiFiSettingsClass` that registration reads or writes, with the
filesystem and the vector `params`. -/
structure Settings where
  fs : FS
  params : List Param := []
  begun : Bool := false
  secure : Bool := false
  password : Str := []

/-- The characters `pwgen()` draws from. -/
def passchars : Str := "ABCEFGHJKLMNPRSTUXYZabcdefhkmnorstvxz23456789-#@?!".toList

/-- The helper `pwgen()`: sixteen characters drawn with `random(strlen(passchars))`. -/
def pwgen (random : Nat → Nat) : Str :=
  (List.range 16).map (fun i => passchars.getD (random i % passchars.length) 'A')

/-- The common start of every registration function: the new object with its name, its label
(the name when no label is given) and its default, hydrated by `fill()`. -/
def newParam (kind : Kind) (name init label : Str) (fs : FS) : Param :=
  Param.fill { kind := kind, name := name, label := if label.length ≠ 0 then label else name,
               init := init } fs

/-- The body of `string(name, init, label)` after its call of `begin()`. -/
def stringCore (s : Settings) (name init label : Str) : Str × Settings :=
  let x := newParam Kind.string name init label s.fs
  (if x.value.length ≠ 0 then x.value else x.init, { s with params := s.params ++ [x] })

/-- The body of `string(name, min_length, max_length, init, label)`. -/
def stringRangeCore (s : Settings) (name : Str) (min_length max_length : Nat)
    (init label : Str) : Str × Settings :=
  let r := stringCore s name init label
  (r.1, { r.2 with
          params := r.2.params.modifyLast
            (fun x => { x with min := min_length, max := max_length }) })

/-- The body of `checkbox(name, init, label)` after its call of `begin()`. -/
def checkboxCore (s : Settings) (name : Str) (init : Bool) (label : Str) : Bool × Settings :=
  let x := newParam Kind.bool name (natToStr (if init then 1 else 0)) label s.fs
  let x1 := if ¬ (x.value.length ≠ 0) then { x with value := x.init } else x
  (decide (toInt x1.value ≠ 0), { s with params := s.params ++ [x1] })

/-- The member `begin()`. The calls of `checkbox` and `string` inside it find `begun` already set, so
their own `begin()` returns at once. The selection of the language and the completion of the
host name touch neither the filesystem nor `params` and are left out. -/
def begin (b : Build) (s : Settings) : Settings :=
  if s.begun then s else
  let s0 := { s with begun := true }
  if b.portalPassword then
    let s1 :=
      if !s0.secure then
        let r := checkboxCore s0 "AsyncWiFiSettings-secure".toList false b.texts.portal_wpa
        { r.2 with secure := r.1 }
      else s0
    if s1.password.length = 0 then
      let r := stringRangeCore s1 "AsyncWiFiSettings-password".toList 8 63 []
        b.texts.portal_password
      let s2 := { r.2 with password := r.1 }
      if s2.password.isEmpty then
        let pw := pwgen b.random
        let ps := s2.params.modifyLast (fun x => x.set pw)
        match ps.getLast? with
        | some x => { s2 with password := pw, params := ps, fs := (x.store s2.fs).2 }
        | none => { s2 with password := pw, params := ps }
      else s2
    else s1
  else s0

/-- The member `string(name, init, label)`: the returned value and the state afterwards. -/
def string (b : Build) (s : Settings) (name init label : Str) : Str × Settings :=
  stringCore (begin b s) name init label

/-- The member `integer(name, init, label)`: the returned value and the state afterwards. -/
def integer (b : Build) (s : Settings) (name : Str) (init : Int) (label : Str) :
    Int × Settings :=
  let s1 := begin b s
  let x := newParam Kind.int name (longToStr init) label s1.fs
  (toInt (if x.value.length ≠ 0 then x.value else x.init),
   { s1 with params := s1.params ++ [x] })

/-- The member `integer(name, min, max, init, label)`. -/
def integerRange (b : Build) (s : Settings) (name : Str) (min max init : Int) (label : Str) :
    Int × Settings :=
  let r := integer b s name init label
  (r.1, { r.2 with params := r.2.params.modifyLast (fun x => { x with min := min, max := max }) })

/-- The member `checkbox(name, init, label)`. -/
def checkbox (b : Build) (s : Settings) (name : Str) (init : Bool) (label : Str) :
    Bool × Settings :=
  checkboxCore (begin b s) name init label

/-! ## `connect()` and `portal()` on an injected clock -/

/-- The number of values of the 32-bit `unsigned long` returned by `millis()`. -/
def U32 : Nat := 4294967296

/-- Subtraction of `unsigned long`. -/
def usub (a b : Nat) : Nat := (a % U32 + U32 - b % U32) % U32

/-- The arguments of `connect(portal, wait_seconds)`. -/
structure ConnectArgs where
  portal : Bool
  wait_seconds : Int

/-- The local `wait_ms = wait_seconds * 1000UL`, in `unsigned long`. -/
def wait_ms (a : ConnectArgs) : Nat := ((a.wait_seconds % 4294967296).toNat * 1000) % U32

/-- What `connect()` meets: the filesystem, the successive answers of the network stack to
`WiFi.begin` and `WiFi.status()` (true for `WL_CONNECTED`), and the callback `onWaitLoop` when
one is set, as the delay it returns at each call. -/
structure ConnectEnv where
  fs : FS
  connected : Nat → Bool
  onWaitLoop : Option (Nat → Nat)

/-- Where the run of `connect()` stands: before its first statement, at the test of the wait
loop, inside the endless loop of `portal()`, or returned to the caller. -/
inductive Loc
  | entry
  | waiting
  | portalLoop
  | returned (ok : Bool)
  deriving DecidableEq

/-- The state of a run of `connect()`: the injected clock read by `millis()` and advanced only
by `delay`, the local variables `status`, `starttime` and `lastbegin`, and three counters of
what the run has done: the calls of `WiFi.begin`, the passes through the reconnect branch of
the wait loop, and the answers taken from the network stack. -/
structure Machine where
  loc : Loc
  clock : Nat
  begins : Nat
  reissues : Nat
  polls : Nat
  connected : Bool
  starttime : Nat
  lastbegin : Nat

/-- The state before `connect()` runs, at clock `t0`. -/
def Machine.init (t0 : Nat) : Machine :=
  { loc := Loc.entry, clock := t0 % U32, begins := 0, reissues := 0, polls := 0,
    connected := false, starttime := 0, lastbegin := 0 }

/-- The call `this->portal()`: the access point is set up, with its `delay(500)`, and the
loop `for (;;)`, which has no exit, is entered. -/
def enterPortal (m : Machine) : Machine :=
  { m with loc := Loc.portalLoop, clock := (m.clock + 500) % U32 }

/-- The body of the wait loop up to its `delay`. -/
def waitBody (env : ConnectEnv) (m : Machine) : Machine :=
  let m1 : Machine :=
    if usub m.clock m.lastbegin > 60000 then
      { m with lastbegin := m.clock, begins := m.begins + 1, reissues := m.reissues + 1,
               connected := env.connected m.polls, polls := m.polls + 1 }
    else
      { m with connected := env.connected m.polls, polls := m.polls + 1 }
  let d := match env.onWaitLoop with
    | some f => f m.polls
    | none => 100
  { m1 with clock := (m1.clock + d) % U32 }

/-- The statements of `connect()` after the wait loop. -/
def afterWait (a : ConnectArgs) (m : Machine) : Machine :=
  if !m.connected then
    if a.portal then enterPortal m else { m with loc := Loc.returned false }
  else { m with loc := Loc.returned true }

/-- One step of a run of `connect()`: the statements before the wait loop, one pass of the
wait loop (with what follows the loop when the pass leaves it), or one pass of the loop of
`portal()`. -/
def connectStep (env : ConnectEnv) (a : ConnectArgs) (m : Machine) : Machine :=
  match m.loc with
  | Loc.entry =>
    if (slurp env.fs "/wifi-ssid".toList).length = 0 then enterPortal m
    else
      { m with loc := Loc.waiting, begins := m.begins + 1,
               connected := env.connected m.polls, polls := m.polls + 1,
               starttime := m.clock, lastbegin := m.clock }
  | Loc.waiting =>
    if m.connected then afterWait a m
    else
      let m2 := waitBody env m
      if 0 ≤ a.wait_seconds ∧ usub m2.clock m2.starttime > wait_ms a then afterWait a m2
      else m2
  | Loc.portalLoop => { m with clock := (m.clock + 1) % U32 }
  | Loc.returned _ => m

/-- The state after `n` steps. -/
def run (env : ConnectEnv) (a : ConnectArgs) : Nat → Machine → Machine
  | 0, m => m
  | n + 1, m => run env a n (connectStep env a m)

/-- The state at the test of the wait loop after `j` passes without reconnect, the run
having started at clock `t0`. -/
def waitingFirst (t0 j : Nat) : Machine :=
  { loc := Loc.waiting, clock := (t0 + 100 * j) % U32, begins := 1, reissues := 0,
    polls := j + 1, connected := false, starttime := t0, lastbegin := t0 }

/-- The state at the test of the wait loop after `j` passes of which pass 602 was the one
reconnect. -/
def waitingSecond (t0 j : Nat) : Machine :=
  { loc := Loc.waiting, clock := (t0 + 100 * j) % U32, begins := 2, reissues := 1,
    polls := j + 1, connected := false, starttime := t0,
    lastbegin := (t0 + 60100) % U32 }

/-- The state in which the wait loop is left by the timeout of 120 seconds. -/
def waitingOver (t0 : Nat) : Machine :=
  { loc := Loc.waiting, clock := (t0 + 120100) % U32, begins := 2, reissues := 1,
    polls := 1202, connected := false, starttime := t0,
    lastbegin := (t0 + 60100) % U32 }

/-- An environment with stored credentials and a network that never connects. -/
def deadNetwork : ConnectEnv :=
  { fs := FS.blank.setFile "/wifi-ssid".toList (some "home".toList),
    connected := fun _ => false, onWaitLoop := none }

/-- An environment with no stored network identity. -/
def firstContact : ConnectEnv :=
  { fs := FS.blank, connected := fun _ => true, onWaitLoop := none }

/-- The string parameter of the scenario in the specification, as registered. -/
def deviceNameParam : Param :=
  { kind := Kind.string, name := "deviceName".toList, label := "Device Name".toList }

/-- The integer parameter of the scenario in the specification, as registered by
`integer("port", 1, 65535, 8080, "Port")` on an empty filesystem. -/
def portParam : Param :=
  { kind := Kind.int, name := "port".toList, label := "Port".toList, init := "8080".toList,
    min := 1, max := 65535 }

/-- A filesystem that holds a WiFi password and nothing else. -/
def fsWithPassword : FS := FS.blank.setFile "/wifi-password".toList (some "hunter2".toList)

/-- A submission that selects a network and leaves the masked password field untouched. -/
def maskedSubmission : Request :=
  [("ssid".toList, "home".toList), ("password".toList, maskingMarker),
   ("deviceName".toList, "Lab-1".toList)]

/-- A filesystem on which the file `/first` cannot be opened for writing. -/
def fsFirstBroken : FS :=
  { FS.blank with openFails := fun fn => decide (fn = "/first".toList) }

/-- Two string parameters, named `first` and `second`. -/
def twoParams : List Param :=
  [{ kind := Kind.string, name := "first".toList }, { kind := Kind.string, name := "second".toList }]

/-- A submission with a value for each of `first` and `second`. -/
def twoValues : Request := [("first".toList, "x".toList), ("second".toList, "y".toList)]

/-- A build without `PORTAL_PASSWORD`. -/
def plainBuild : Build :=
  { portalPassword := false, texts := { portal_wpa := [], portal_password := [] },
    random := fun _ => 0 }

/-- The settings object before any registration, on an empty filesystem. -/
def freshSettings : Settings := { fs := FS.blank }

/-- A dropdown with three plain labels. -/
def colourDropdown (value init : Str) : Param :=
  { kind := Kind.dropdown, name := "colour".toList, label := "Colour".toList, value := value,
    init := init, options := ["red".toList, "green".toList, "blue".toList] }

/-- A dropdown whose single label carries markup of its own. -/
def markupDropdown : Param :=
  { kind := Kind.dropdown, name := "d".toList, label := "D".toList, value := "0".toList,
    options := ["</option><option value='9' selected>x".toList] }

/-- A dropdown with three plain labels whose value writes the index 1 with a leading zero. -/
def paddedDropdown : Param := colourDropdown "01".toList []

/-- A Password parameter holding the secret `s`. -/
def secretParam (s : Str) : Param :=
  { kind := Kind.password, name := "token".toList, label := "Token".toList, value := s }

/-- A String parameter whose name is the text of the placeholder of the value. -/
def placeholderNameParam : Param :=
  { kind := Kind.string, name := "{value}".toList, label := "L".toList, value := "x".toList,
    init := "d".toList }

/-- The markup the specification gives for a String parameter: each attribute holds the
escaped content of its own field. -/
def stringHtmlSpec (p : Param) : Str :=
  "<p><label>".toList ++ html_entities p.label ++ ":<br><input name='".toList
    ++ html_entities p.name ++ "' value='".toList ++ html_entities p.value
    ++ "' placeholder='".toList ++ html_entities p.init ++ "'></label>".toList

/-! # Theorems -/

/-! ## Storage round trip -/

theorem FS.setFile_file_same (fs : FS) (fn : Str) (c : Option Str) :
    (fs.setFile fn c).file fn = c := by
  simp [FS.setFile]

theorem FS.setFile_file_other (fs : FS) (fn g : Str) (c : Option Str) (h : g ≠ fn) :
    (fs.setFile fn c).file g = fs.file g := by
  simp [FS.setFile, h]

/-- A successful `spurt` leaves exactly the written content to be read back. -/
theorem spurt_ok_slurp (fs : FS) (fn c : Str) (hok : (spurt fs fn c).1 = true) :
    slurp (spurt fs fn c).2 fn = c := by
  unfold spurt at hok ⊢
  cases c with
  | nil =>
    simp only [List.isEmpty_nil, if_true] at hok ⊢
    by_cases hex : fs.fileExists fn = true
    · simp only [hex, if_true, FS.remove] at hok ⊢
      by_cases hrm : fs.removeFails fn = true
      · simp [hrm] at hok
      · simp [hrm, slurp, FS.setFile]
    · simp only [hex] at hok ⊢
      simp only [FS.fileExists, Option.isSome_iff_ne_none, ne_eq, not_not] at hex
      simp [slurp, hex]
  | cons a as =>
    simp only [List.isEmpty_cons, FS.openW] at hok ⊢
    by_cases hop : fs.openFails fn = true
    · simp [hop] at hok
    · simp only [hop, Bool.false_eq_true, if_false, FS.print, FS.setFile_file_same,
        Option.getD_some, List.nil_append, beq_iff_eq, slurp] at hok ⊢
      cases hcap : (fs.setFile fn (some [])).writeCap with
      | none => simp
      | some k =>
        simp only [hcap] at hok
        have hle : (a :: as).length ≤ k := by omega
        show List.take (min k (a :: as).length) (a :: as) = a :: as
        rw [hok]
        exact List.take_length _

/-- A successful `spurt` of the empty string leaves no file. -/
theorem spurt_ok_nil (fs : FS) (fn : Str) (hok : (spurt fs fn []).1 = true) :
    (spurt fs fn []).2.file fn = none := by
  unfold spurt at hok ⊢
  simp only [List.isEmpty_nil, if_true] at hok ⊢
  by_cases hex : fs.fileExists fn = true
  · simp only [hex, if_true, FS.remove] at hok ⊢
    by_cases hrm : fs.removeFails fn = true
    · simp [hrm] at hok
    · simp [hrm, FS.setFile]
  · simp only [hex]
    simpa [FS.fileExists] using hex

/-- C1: for a parameter with a non-empty name, when `store()` with value `v` returns true,
a following `fill()` (of any parameter object of that name, as in the next session) sets the
value to exactly `v`; for the empty `v` no file is left. -/
theorem store_fill_roundtrip (fs : FS) (p q : Param) (v : Str)
    (hname : p.name ≠ []) (hq : q.name = p.name)
    (hok : (Param.store { p with value := v } fs).1 = true) :
    (q.fill (Param.store { p with value := v } fs).2).value = v ∧
      (v = [] → (Param.store { p with value := v } fs).2.file p.filename = none) := by
  have hlen : p.name.length ≠ 0 := by
    intro h; exact hname (List.length_eq_zero.mp h)
  have hfn : q.filename = p.filename := by simp [Param.filename, hq]
  have hqlen : q.name.length ≠ 0 := by rw [hq]; exact hlen
  have hst : Param.store { p with value := v } fs = spurt fs p.filename v := by
    simp [Param.store, hlen, Param.filename]
  rw [hst] at hok ⊢
  refine ⟨?_, ?_⟩
  · simp only [Param.fill, hqlen, ne_eq, not_false_eq_true, if_true, hfn]
    exact spurt_ok_slurp fs p.filename v hok
  · intro hv
    subst hv
    exact spurt_ok_nil fs p.filename hok

/-- C1, the scenario of the specification: the string parameter `deviceName` stored with the
submitted value `Lab-1` is read back as `Lab-1` by `fill()`. -/
theorem store_fill_roundtrip_witness :
    (Param.store { deviceNameParam with value := "Lab-1".toList } FS.blank).1 = true ∧
    (deviceNameParam.fill
      (Param.store { deviceNameParam with value := "Lab-1".toList } FS.blank).2).value
      = "Lab-1".toList :=
  ⟨by decide,
   (store_fill_roundtrip FS.blank deviceNameParam deviceNameParam "Lab-1".toList
      (by decide) rfl (by decide)).1⟩

/-! ## Password and Boolean `set` -/

theorem dropWhile_isspace_eq_nil (l : Str) (h : ∀ c ∈ l.dropWhile isspace, isspace c = true) :
    l.dropWhile isspace = [] := by
  cases hd : l.dropWhile isspace with
  | nil => rfl
  | cons a as =>
    have h1 : isspace a = true := h a (by rw [hd]; exact List.mem_cons_self a as)
    have h2 := List.head_dropWhile_not isspace l (by rw [hd]; exact List.cons_ne_nil a as)
    simp only [hd, List.head_cons] at h2
    rw [h1] at h2
    exact absurd h2 (by decide)

/-- The trimmed string is empty exactly when every character is white space. -/
theorem trim_eq_nil_iff (v : Str) : trim v = [] ↔ ∀ c ∈ v, isspace c = true := by
  unfold trim
  rw [List.reverse_eq_nil_iff, List.dropWhile_eq_nil_iff]
  constructor
  · intro h
    have h1 : v.dropWhile isspace = [] :=
      dropWhile_isspace_eq_nil v (fun c hc => h c (List.mem_reverse.mpr hc))
    exact List.dropWhile_eq_nil_iff.mp h1
  · intro h c hc
    have hc1 : c ∈ v.dropWhile isspace := List.mem_reverse.mp hc
    exact h c ((List.dropWhile_sublist isspace).subset hc1)

/-- The trimmed string is the input without a run of white space at its start and one at its
end, and it neither starts nor ends with white space. -/
theorem trim_spec (v : Str) :
    ∃ a b : Str, v = a ++ trim v ++ b ∧ (∀ c ∈ a, isspace c = true) ∧
      (∀ c ∈ b, isspace c = true) ∧
      (∀ c, (trim v).head? = some c → isspace c = false) ∧
      (∀ c, (trim v).getLast? = some c → isspace c = false) := by
  let w := v.dropWhile isspace
  have hv : v = v.takeWhile isspace ++ w := (List.takeWhile_append_dropWhile isspace v).symm
  have hw : w.reverse = w.reverse.takeWhile isspace ++ w.reverse.dropWhile isspace :=
    (List.takeWhile_append_dropWhile isspace w.reverse).symm
  have hw2 : w = trim v ++ (w.reverse.takeWhile isspace).reverse := by
    have := congrArg List.reverse hw
    rw [List.reverse_reverse, List.reverse_append] at this
    exact this
  have hlast : ∀ c, (trim v).getLast? = some c → isspace c = false := by
    intro c hc
    have hne : w.reverse.dropWhile isspace ≠ [] := by
      intro h0
      have : trim v = [] := by unfold trim; rw [h0]; rfl
      rw [this] at hc; simp at hc
    have h2 := List.head_dropWhile_not isspace w.reverse hne
    have h3 : (w.reverse.dropWhile isspace).head? = some c := by
      have : (trim v).getLast? = (w.reverse.dropWhile isspace).head? := by
        unfold trim; rw [List.getLast?_reverse]
      rw [← this]; exact hc
    rw [List.head?_eq_head hne] at h3
    have h4 : (w.reverse.dropWhile isspace).head hne = c := Option.some.inj h3
    rw [h4] at h2
    simpa using h2
  refine ⟨v.takeWhile isspace, (w.reverse.takeWhile isspace).reverse, ?_, ?_, ?_, ?_, hlast⟩
  · rw [List.append_assoc, ← hw2]; exact hv
  · intro c hc; exact List.mem_takeWhile_imp hc
  · intro c hc; exact List.mem_takeWhile_imp (List.mem_reverse.mp hc)
  · intro c hc
    by_cases ht : trim v = []
    · rw [ht] at hc; simp at hc
    · have hwne : w ≠ [] := by
        intro h0
        apply ht
        unfold trim
        show ((List.dropWhile isspace w.reverse).reverse) = []
        rw [h0]; rfl
      have h2 := List.head_dropWhile_not isspace v hwne
      have h3 : w.head? = some c := by
        rw [hw2, List.head?_append_of_ne_nil _ ht]; exact hc
      rw [List.head?_eq_head hwne] at h3
      have h4 : w.head hwne = c := Option.some.inj h3
      rw [h4] at h2
      simpa using h2

/-- C2: after `set(v)` a Password parameter holds `trim(v)` when that is not empty, and keeps
its prior value when `v` is empty or all white space (the two cases cover every `v`). -/
theorem password_set (p : Param) (v : Str) (hk : p.kind = Kind.password) :
    (trim v ≠ [] → (p.set v).value = trim v) ∧
    (v = [] → (p.set v).value = p.value) ∧
    ((∀ c ∈ v, isspace c = true) → (p.set v).value = p.value) ∧
    (trim v = [] ↔ ∀ c ∈ v, isspace c = true) := by
  have hnil : trim v = [] → (p.set v).value = p.value := by
    intro h
    simp [Param.set, hk, h]
  refine ⟨?_, ?_, ?_, trim_eq_nil_iff v⟩
  · intro h
    have hl : (trim v).length ≠ 0 := fun h0 => h (List.length_eq_zero.mp h0)
    simp [Param.set, hk, hl]
  · intro h
    subst h
    exact hnil rfl
  · intro h
    exact hnil ((trim_eq_nil_iff v).mpr h)

/-- C2 at a concrete Password parameter holding `old`: a padded input is stored trimmed. -/
theorem password_set_witness :
    (Param.set { kind := Kind.password, name := "pw".toList, value := "old".toList }
      "  s3cret \t".toList).value = "s3cret".toList :=
  (by decide : trim "  s3cret \t".toList = "s3cret".toList) ▸
    (password_set { kind := Kind.password, name := "pw".toList, value := "old".toList }
      "  s3cret \t".toList rfl).1 (by decide)

/-- C5: after `set(s)` a Boolean parameter holds exactly "1" when `s` is not empty and "0"
when it is, so that the value read with `toInt()` is non-zero exactly when `s` is not empty,
whatever the characters of `s` are. -/
theorem bool_set (p : Param) (s : Str) (hk : p.kind = Kind.bool) :
    (s ≠ [] → (p.set s).value = "1".toList ∧ toInt (p.set s).value ≠ 0) ∧
    (s = [] → (p.set s).value = "0".toList ∧ toInt (p.set s).value = 0) := by
  constructor
  · intro h
    have hl : s.length ≠ 0 := fun h0 => h (List.length_eq_zero.mp h0)
    have hv : (p.set s).value = "1".toList := by simp [Param.set, hk, hl]
    rw [hv]
    exact ⟨rfl, by decide⟩
  · intro h
    subst h
    have hv : (p.set []).value = "0".toList := by simp [Param.set, hk]
    rw [hv]
    exact ⟨rfl, by decide⟩

/-- C5 at a concrete checkbox: the submitted text `off` still reads as true. -/
theorem bool_set_witness :
    (Param.set { kind := Kind.bool, name := "led".toList } "off".toList).value = "1".toList ∧
      toInt (Param.set { kind := Kind.bool, name := "led".toList } "off".toList).value ≠ 0 :=
  (bool_set { kind := Kind.bool, name := "led".toList } "off".toList rfl).1 (by decide)

/-! ## The form submission -/

theorem spurt_file_other (fs : FS) (fn g c : Str) (h : g ≠ fn) :
    (spurt fs fn c).2.file g = fs.file g := by
  unfold spurt
  split
  · split
    · unfold FS.remove
      split
      · rfl
      · exact FS.setFile_file_other fs fn g none h
    · rfl
  · unfold FS.openW
    split
    · rfl
    · rename_i fs1 heq
      split at heq
      · exact absurd heq (by simp)
      · have h1 : fs1 = fs.setFile fn (some []) := (Option.some.inj heq).symm
        subst h1
        simp [FS.print, FS.setFile, h]

theorem spurt_working (fs : FS) (fn c : Str) (hw : fs.working) :
    (spurt fs fn c).1 = true ∧ (spurt fs fn c).2.working := by
  obtain ⟨ho, hr, hc⟩ := hw
  unfold spurt
  split
  · split
    · simp only [FS.remove, hr]
      exact ⟨rfl, ho, hr, hc⟩
    · exact ⟨rfl, ho, hr, hc⟩
  · simp only [FS.openW, ho, Bool.false_eq_true, if_false, FS.print, FS.setFile, hc, beq_self_eq_true]
    exact ⟨trivial, ho, hr, rfl⟩

theorem Param.set_name (p : Param) (v : Str) : (p.set v).name = p.name := by
  unfold Param.set
  cases p.kind <;> simp only []
  split <;> rfl

theorem Param.store_file_other (p : Param) (fs : FS) (g : Str) (h : g ≠ p.filename) :
    (p.store fs).2.file g = fs.file g := by
  unfold Param.store
  split
  · exact spurt_file_other fs p.filename g p.value h
  · rfl

theorem Param.store_working (p : Param) (fs : FS) (hw : fs.working) :
    (p.store fs).1 = true ∧ (p.store fs).2.working := by
  unfold Param.store
  split
  · exact spurt_working fs p.filename p.value hw
  · exact ⟨rfl, hw⟩

theorem postParams_file_other (req : Request) (g : Str) (ps : List Param) :
    ∀ (ok : Bool) (fs : FS), (∀ p ∈ ps, p.filename ≠ g) →
      (postParams req ps ok fs).fs.file g = fs.file g := by
  induction ps with
  | nil => intro ok fs _; rfl
  | cons p ps ih =>
    intro ok fs h
    simp only [postParams]
    rw [ih _ _ (fun q hq => h q (List.mem_cons_of_mem p hq))]
    apply Param.store_file_other
    have := h p (List.mem_cons_self p ps)
    simp only [Param.filename, Param.set_name] at this ⊢
    exact fun h0 => this h0.symm

theorem postParams_working (req : Request) (ps : List Param) :
    ∀ (ok : Bool) (fs : FS), fs.working →
      (postParams req ps ok fs).ok = ok ∧ (postParams req ps ok fs).fs.working := by
  induction ps with
  | nil => intro ok fs hw; exact ⟨rfl, hw⟩
  | cons p ps ih =>
    intro ok fs hw
    have hs := Param.store_working (p.set (arg req p.name)) fs hw
    simp only [postParams]
    have := ih (if !((p.set (arg req p.name)).store fs).1 then false else ok) _ hs.2
    refine ⟨?_, this.2⟩
    rw [this.1, hs.1]
    rfl

theorem postParams_append (req : Request) (a b : List Param) :
    ∀ (ok : Bool) (fs : FS),
      postParams req (a ++ b) ok fs =
        { ok := (postParams req b (postParams req a ok fs).ok (postParams req a ok fs).fs).ok,
          fs := (postParams req b (postParams req a ok fs).ok (postParams req a ok fs).fs).fs,
          params := (postParams req a ok fs).params ++
            (postParams req b (postParams req a ok fs).ok (postParams req a ok fs).fs).params } := by
  induction a with
  | nil => intro ok fs; rfl
  | cons p ps ih =>
    intro ok fs
    rw [List.cons_append]
    have h1 : ∀ l, postParams req (p :: l) ok fs =
        { postParams req l (if !((p.set (arg req p.name)).store fs).1 then false else ok)
            ((p.set (arg req p.name)).store fs).2 with
          params := p.set (arg req p.name) ::
            (postParams req l (if !((p.set (arg req p.name)).store fs).1 then false else ok)
              ((p.set (arg req p.name)).store fs).2).params } := fun _ => rfl
    rw [h1, h1, ih]
    rfl

theorem postParams_params (req : Request) (ps : List Param) :
    ∀ (ok : Bool) (fs : FS),
      (postParams req ps ok fs).params = ps.map (fun p => p.set (arg req p.name)) := by
  induction ps with
  | nil => intro ok fs; rfl
  | cons p ps ih =>
    intro ok fs
    simp only [postParams, List.map_cons]
    rw [ih]

theorem postWifi_file_password (req : Request) (ok : Bool) (fs : FS)
    (hpw : arg req "password".toList = maskingMarker) :
    (postWifi req ok fs).2.file "/wifi-password".toList = fs.file "/wifi-password".toList := by
  unfold postWifi
  simp only [hpw, bne_self_eq_false, Bool.and_false, Bool.false_eq_true, if_false]
  split
  · exact spurt_file_other fs _ _ _ (by decide)
  · rfl

theorem postReserved_file_password (cw ml : Bool) (req : Request) (fs : FS)
    (hpw : arg req "password".toList = maskingMarker) :
    (postReserved cw ml req fs).2.file "/wifi-password".toList
      = fs.file "/wifi-password".toList := by
  have ha : ∀ ok, ((if cw then postWifi req ok fs else (ok, fs)) : Bool × FS).2.file
      "/wifi-password".toList = fs.file "/wifi-password".toList := by
    intro ok
    split
    · exact postWifi_file_password req ok fs hpw
    · rfl
  unfold postReserved
  simp only []
  split
  · unfold postLanguage
    simp only []
    rw [spurt_file_other _ _ _ _ (by decide)]
    exact ha true
  · exact ha true

/-- C3: a submission whose reserved `password` field equals the masking marker leaves the
content stored under `/wifi-password` as it was, when no registered parameter is named
`wifi-password`. -/
theorem post_marker_keeps_password (cw ml : Bool) (req : Request) (params : List Param)
    (fs : FS) (hpw : arg req "password".toList = maskingMarker)
    (hreg : ∀ p ∈ params, p.name ≠ "wifi-password".toList) :
    (postRoot cw ml req params fs).fs.file "/wifi-password".toList
      = fs.file "/wifi-password".toList := by
  unfold postRoot
  rw [postParams_file_other req _ params _ _ ?_]
  · exact postReserved_file_password cw ml req fs hpw
  · intro p hp h
    apply hreg p hp
    simp only [Param.filename] at h
    exact List.tail_eq_of_cons_eq h

/-- C3 at a concrete submission: the stored password `hunter2` survives a submission that
carries the masking marker. -/
theorem post_marker_keeps_password_witness :
    arg maskedSubmission "password".toList = maskingMarker ∧
    (postRoot true false maskedSubmission [deviceNameParam] fsWithPassword).fs.file
      "/wifi-password".toList = some "hunter2".toList :=
  ⟨by decide,
   (post_marker_keeps_password true false maskedSubmission [deviceNameParam] fsWithPassword
      (by decide) (by decide)).trans (by decide)⟩

theorem postParams_calls (req : Request) (ps : List Param) :
    ∀ (ok : Bool) (fs : FS),
      (postParams req ps ok fs).ok = (ok && (storeCalls req ps fs).all (fun c => c.2.1)) ∧
      (postParams req ps ok fs).fs = lastFS fs (storeCalls req ps fs) := by
  induction ps with
  | nil => intro ok fs; simp [postParams, storeCalls, lastFS]
  | cons p ps ih =>
    intro ok fs
    have h := ih (if !((p.set (arg req p.name)).store fs).1 then false else ok)
      ((p.set (arg req p.name)).store fs).2
    simp only [postParams, storeCalls, lastFS, List.all_cons]
    refine ⟨?_, h.2⟩
    rw [h.1]
    cases ((p.set (arg req p.name)).store fs).1 <;> cases ok <;> simp

theorem storeCalls_params (req : Request) (ps : List Param) :
    ∀ fs : FS, (storeCalls req ps fs).map (fun c => c.1)
      = ps.map (fun p => p.set (arg req p.name)) := by
  induction ps with
  | nil => intro fs; rfl
  | cons p ps ih => intro fs; simp only [storeCalls, List.map_cons, ih]

/-- The value set on a parameter whose own `store()` succeeds is what the filesystem holds
after the whole loop, whatever happened to the parameters before it, when no later
parameter has its name. -/
theorem postParams_persisted (req : Request) (pre post : List Param) (p : Param) (ok : Bool)
    (fs : FS) (hname : p.name ≠ []) (hpost : ∀ q ∈ post, q.name ≠ p.name)
    (hst : ((p.set (arg req p.name)).store (postParams req pre ok fs).fs).1 = true) :
    slurp (postParams req (pre ++ p :: post) ok fs).fs p.filename
      = (p.set (arg req p.name)).value := by
  rw [postParams_append]
  simp only [postParams]
  unfold slurp
  rw [postParams_file_other req p.filename post _ _ ?_]
  · have hlen : (p.set (arg req p.name)).name.length ≠ 0 := by
      rw [Param.set_name]
      exact fun h => hname (List.length_eq_zero.mp h)
    have hfn : (p.set (arg req p.name)).filename = p.filename := by
      simp [Param.filename, Param.set_name]
    have hs : (p.set (arg req p.name)).store (postParams req pre ok fs).fs
        = spurt (postParams req pre ok fs).fs p.filename (p.set (arg req p.name)).value := by
      simp [Param.store, hlen, hfn]
    rw [hs] at hst ⊢
    exact spurt_ok_slurp _ _ _ hst
  · intro q hq h
    apply hpost q hq
    simp only [Param.filename] at h
    exact List.tail_eq_of_cons_eq h

/-- C4: the handler applies `set` and then `store` to every registered parameter in
registration order, each `store` running on the filesystem its predecessor left, whether or
not that predecessor failed; the flag `ok` is the conjunction of the results of the reserved
fields and of all those `store` calls, so it is true only if every `store` returned true; and
a value whose own `store` succeeded is persisted even after earlier failures. -/
theorem apply_submission_no_short_circuit (cw ml : Bool) (req : Request)
    (params : List Param) (fs : FS) :
    (storeCalls req params (postReserved cw ml req fs).2).map (fun c => c.1)
      = params.map (fun p => p.set (arg req p.name)) ∧
    (postRoot cw ml req params fs).params = params.map (fun p => p.set (arg req p.name)) ∧
    (postRoot cw ml req params fs).fs
      = lastFS (postReserved cw ml req fs).2 (storeCalls req params (postReserved cw ml req fs).2) ∧
    (postRoot cw ml req params fs).ok
      = ((postReserved cw ml req fs).1 &&
          (storeCalls req params (postReserved cw ml req fs).2).all (fun c => c.2.1)) ∧
    ((postRoot cw ml req params fs).ok = true →
      ∀ c ∈ storeCalls req params (postReserved cw ml req fs).2, c.2.1 = true) ∧
    (∀ (pre post : List Param) (p : Param), params = pre ++ p :: post → p.name ≠ [] →
      (∀ q ∈ post, q.name ≠ p.name) →
      ((p.set (arg req p.name)).store
        (postParams req pre (postReserved cw ml req fs).1 (postReserved cw ml req fs).2).fs).1
          = true →
      slurp (postRoot cw ml req params fs).fs p.filename = (p.set (arg req p.name)).value) := by
  have h := postParams_calls req params (postReserved cw ml req fs).1 (postReserved cw ml req fs).2
  refine ⟨storeCalls_params req params _, postParams_params req params _ _, h.2, h.1, ?_, ?_⟩
  · intro hok c hc
    unfold postRoot at hok
    rw [h.1, Bool.and_eq_true, List.all_eq_true] at hok
    exact hok.2 c hc
  · intro pre post p hp hname hpost hst
    subst hp
    exact postParams_persisted req pre post p _ _ hname hpost hst

/-- C4 at a concrete registry: the `store` of `first` fails, the handler answers with
`ok = false`, and the value of `second` is persisted all the same. -/
theorem apply_submission_no_short_circuit_witness :
    (postRoot false false twoValues twoParams fsFirstBroken).ok = false ∧
    slurp (postRoot false false twoValues twoParams fsFirstBroken).fs "/second".toList
      = "y".toList :=
  ⟨by decide,
   (apply_submission_no_short_circuit false false twoValues twoParams fsFirstBroken).2.2.2.2.2
      [{ kind := Kind.string, name := "first".toList }] []
      { kind := Kind.string, name := "second".toList } rfl (by decide) (by simp) (by decide)⟩

/-- C6: the range of an Integer parameter is not enforced: on a working storage the handler
succeeds and the submitted string `v` is the value set and persisted for the parameter,
whatever its `min` and `max` are (no later parameter having its name). -/
theorem integer_range_not_enforced (cw ml : Bool) (req : Request) (pre post : List Param)
    (p : Param) (fs : FS) (v : Str) (hk : p.kind = Kind.int) (hname : p.name ≠ [])
    (hw : fs.working) (hv : arg req p.name = v) (hpost : ∀ q ∈ post, q.name ≠ p.name) :
    (postRoot cw ml req (pre ++ p :: post) fs).ok = true ∧
    slurp (postRoot cw ml req (pre ++ p :: post) fs).fs p.filename = v ∧
    ((postRoot cw ml req (pre ++ p :: post) fs).params.get? pre.length).map (fun x => x.value)
      = some v := by
  have hres : (postReserved cw ml req fs).1 = true ∧ (postReserved cw ml req fs).2.working := by
    have ha : ((if cw then postWifi req true fs else (true, fs)) : Bool × FS).1 = true ∧
        ((if cw then postWifi req true fs else (true, fs)) : Bool × FS).2.working := by
      split
      · unfold postWifi
        simp only []
        have h1 : ((if (!(arg req "ssid".toList).isEmpty) = true then
            ((if (!(spurt fs "/wifi-ssid".toList (arg req "ssid".toList)).1) = true then false
              else true), (spurt fs "/wifi-ssid".toList (arg req "ssid".toList)).2)
            else (true, fs)) : Bool × FS).1 = true ∧
            ((if (!(arg req "ssid".toList).isEmpty) = true then
            ((if (!(spurt fs "/wifi-ssid".toList (arg req "ssid".toList)).1) = true then false
              else true), (spurt fs "/wifi-ssid".toList (arg req "ssid".toList)).2)
            else (true, fs)) : Bool × FS).2.working := by
          split
          · have := spurt_working fs "/wifi-ssid".toList (arg req "ssid".toList) hw
            simp only [this.1]
            exact ⟨rfl, this.2⟩
          · exact ⟨rfl, hw⟩
        split
        · have := spurt_working _ "/wifi-password".toList (arg req "password".toList) h1.2
          simp only [this.1]
          exact ⟨h1.1, this.2⟩
        · exact h1
      · exact ⟨rfl, hw⟩
    unfold postReserved
    simp only []
    split
    · unfold postLanguage
      have := spurt_working _ "/AsyncWiFiSettings-language".toList (arg req "language".toList) ha.2
      simp only [this.1]
      exact ⟨ha.1, this.2⟩
    · exact ha
  have hval : (p.set (arg req p.name)).value = v := by simp [Param.set, hk, hv]
  have hpre := postParams_working req pre (postReserved cw ml req fs).1 _ hres.2
  have hall := postParams_working req (pre ++ p :: post) (postReserved cw ml req fs).1 _ hres.2
  refine ⟨?_, ?_, ?_⟩
  · unfold postRoot
    rw [hall.1]
    exact hres.1
  · unfold postRoot
    rw [postParams_persisted req pre post p _ _ hname hpost
      (Param.store_working _ _ hpre.2).1]
    exact hval
  · unfold postRoot
    rw [postParams_params, List.get?_eq_getElem?, List.getElem?_map,
      List.getElem?_append_right (Nat.le_refl _)]
    simp [hval]

/-- C6, the scenario of the specification: the parameter `port` with range 1..65535 and
default 8080, submitted as `99999`, is stored as "99999" and the handler succeeds. -/
theorem integer_range_not_enforced_witness :
    (postRoot true false [("port".toList, "99999".toList)] [portParam] FS.blank).ok = true ∧
    slurp (postRoot true false [("port".toList, "99999".toList)] [portParam] FS.blank).fs
      "/port".toList = "99999".toList :=
  ⟨(integer_range_not_enforced true false [("port".toList, "99999".toList)] [] [] portParam
      FS.blank "99999".toList rfl (by decide) ⟨fun _ => rfl, fun _ => rfl, rfl⟩ (by decide)
      (by simp)).1,
   (integer_range_not_enforced true false [("port".toList, "99999".toList)] [] [] portParam
      FS.blank "99999".toList rfl (by decide) ⟨fun _ => rfl, fun _ => rfl, rfl⟩ (by decide)
      (by simp)).2.1⟩

/-! ## Decimal text and `toInt` -/

theorem digitChar_toNat (d : Nat) (h : d < 10) : (digitChar d).toNat = 48 + d := by
  interval_cases d <;> rfl

theorem digitChar_isdigit (d : Nat) (h : d < 10) : isdigit (digitChar d) = true := by
  interval_cases d <;> rfl

theorem natDigits_isdigit (f : Nat) : ∀ n, ∀ c ∈ natDigits f n, isdigit c = true := by
  induction f with
  | zero => intro n c hc; simp [natDigits] at hc
  | succ f ih =>
    intro n c hc
    unfold natDigits at hc
    split at hc
    · rename_i hn
      rw [List.mem_singleton] at hc
      subst hc
      exact digitChar_isdigit n hn
    · rcases List.mem_append.mp hc with h | h
      · exact ih _ c h
      · rw [List.mem_singleton] at h
        subst h
        exact digitChar_isdigit _ (Nat.mod_lt n (by decide))

theorem digitsVal_append_singleton (a : Str) (c : Char) :
    digitsVal (a ++ [c]) = 10 * digitsVal a + (c.toNat - 48) := by
  simp [digitsVal, List.foldl_append]

theorem natDigits_val (f : Nat) : ∀ n, n < f → digitsVal (natDigits f n) = n := by
  induction f with
  | zero => intro n h; omega
  | succ f ih =>
    intro n h
    unfold natDigits
    split
    · rename_i hn
      simp [digitsVal, digitChar_toNat n hn]
    · rename_i hn
      rw [digitsVal_append_singleton, ih (n / 10) (by omega),
        digitChar_toNat _ (Nat.mod_lt n (by decide))]
      omega

theorem isdigit_not_isspace (c : Char) (h : isdigit c = true) : isspace c = false := by
  by_contra hs
  have hs1 : isspace c = true := by simpa using hs
  simp only [isspace, Bool.or_eq_true, decide_eq_true_eq] at hs1
  simp only [isdigit, Bool.and_eq_true, decide_eq_true_eq] at h
  rcases hs1 with ((((h1 | h1) | h1) | h1) | h1) | h1 <;> subst h1 <;> revert h <;> decide

theorem atol_digits (l : Str) (h : ∀ c ∈ l, isdigit c = true) :
    atol l = clampLong (digitsVal l) := by
  have htake : l.takeWhile isdigit = l := List.takeWhile_eq_self_iff.mpr h
  cases l with
  | nil => rfl
  | cons a as =>
    have ha := h a (List.mem_cons_self a as)
    have hsp := isdigit_not_isspace a ha
    have hd : (a :: as).dropWhile isspace = a :: as := by simp [List.dropWhile, hsp]
    unfold atol
    simp only [hd]
    split
    · rename_i r heq
      have : a = '-' := (List.cons.inj heq).1
      subst this
      exact absurd ha (by decide)
    · rename_i r heq
      have : a = '+' := (List.cons.inj heq).1
      subst this
      exact absurd ha (by decide)
    · rw [htake]

theorem atol_minus_digits (l : Str) (h : ∀ c ∈ l, isdigit c = true) :
    atol ('-' :: l) = clampLong (-(digitsVal l : Int)) := by
  have htake : l.takeWhile isdigit = l := List.takeWhile_eq_self_iff.mpr h
  have hd : ('-' :: l).dropWhile isspace = '-' :: l := by
    simp [List.dropWhile, show isspace '-' = false by decide]
  unfold atol
  simp only [hd, htake]

/-- Reading back the decimal text of a `long` gives that `long`. -/
theorem toInt_longToStr (d : Int) (hlo : LONG_MIN ≤ d) (hhi : d ≤ LONG_MAX) :
    toInt (longToStr d) = d := by
  have hv : digitsVal (natToStr d.natAbs) = d.natAbs := natDigits_val _ _ (Nat.lt_succ_self _)
  have hdig : ∀ c ∈ natToStr d.natAbs, isdigit c = true :=
    natDigits_isdigit (d.natAbs + 1) d.natAbs
  unfold toInt longToStr
  unfold LONG_MIN at hlo
  unfold LONG_MAX at hhi
  split
  · rw [atol_minus_digits _ hdig, hv]
    unfold clampLong LONG_MIN LONG_MAX
    split
    · omega
    · split <;> omega
  · rw [atol_digits _ hdig, hv]
    unfold clampLong LONG_MIN LONG_MAX
    split
    · omega
    · split <;> omega

/-! ## Registration -/

theorem newParam_value (kind : Kind) (name init label : Str) (fs : FS) :
    (newParam kind name init label fs).value
      = if name ≠ [] then slurp fs ('/' :: name) else [] := by
  unfold newParam Param.fill
  by_cases h : name = []
  · subst h; rfl
  · have hl : name.length ≠ 0 := fun h0 => h (List.length_eq_zero.mp h0)
    simp [hl, h, Param.filename]

theorem newParam_init (kind : Kind) (name init label : Str) (fs : FS) :
    (newParam kind name init label fs).init = init := by
  unfold newParam Param.fill
  simp only []
  split <;> rfl

/-- Without `PORTAL_PASSWORD`, or once `begun` is set, `begin()` leaves the filesystem and
the registered parameters as they are. -/
theorem begin_fs (b : Build) (s : Settings) (h : s.begun = true ∨ b.portalPassword = false) :
    (begin b s).fs = s.fs ∧ (begin b s).params = s.params := by
  unfold begin
  by_cases hb : s.begun = true
  · simp [hb]
  · rcases h with h | h
    · exact absurd h hb
    · simp [hb, h]

/-- C7: registering a string or an integer parameter returns the value persisted under its
name when that is not empty, and the default otherwise, the integer read with `toInt`; a
default `long` comes back as itself; so with nothing stored under the name the default is
returned. The filesystem read is the one `begin()` leaves, which is the one before the call
once `begun` is set or when `PORTAL_PASSWORD` is not defined. -/
theorem registration_returns_effective_value (b : Build) (s : Settings) (name label : Str) :
    (∀ init : Str, (string b s name init label).1 =
      if name ≠ [] ∧ slurp (begin b s).fs ('/' :: name) ≠ []
      then slurp (begin b s).fs ('/' :: name) else init) ∧
    (∀ init : Int, (integer b s name init label).1 =
      if name ≠ [] ∧ slurp (begin b s).fs ('/' :: name) ≠ []
      then toInt (slurp (begin b s).fs ('/' :: name)) else toInt (longToStr init)) ∧
    (∀ init : Int, LONG_MIN ≤ init → init ≤ LONG_MAX → toInt (longToStr init) = init) ∧
    (∀ init : Str, slurp (begin b s).fs ('/' :: name) = [] →
      (string b s name init label).1 = init) ∧
    (∀ init : Int, LONG_MIN ≤ init → init ≤ LONG_MAX →
      slurp (begin b s).fs ('/' :: name) = [] → (integer b s name init label).1 = init) ∧
    ((s.begun = true ∨ b.portalPassword = false) → (begin b s).fs = s.fs) := by
  have hs : ∀ init : Str, (string b s name init label).1 =
      if name ≠ [] ∧ slurp (begin b s).fs ('/' :: name) ≠ []
      then slurp (begin b s).fs ('/' :: name) else init := by
    intro init
    simp only [string, stringCore, newParam_value, newParam_init]
    by_cases hn : name = []
    · simp [hn]
    · by_cases hv : slurp (begin b s).fs ('/' :: name) = []
      · simp [hn, hv]
      · have hl : (slurp (begin b s).fs ('/' :: name)).length ≠ 0 :=
          fun h0 => hv (List.length_eq_zero.mp h0)
        simp [hn, hv]
  have hi : ∀ init : Int, (integer b s name init label).1 =
      if name ≠ [] ∧ slurp (begin b s).fs ('/' :: name) ≠ []
      then toInt (slurp (begin b s).fs ('/' :: name)) else toInt (longToStr init) := by
    intro init
    simp only [integer, newParam_value, newParam_init]
    by_cases hn : name = []
    · simp [hn]
    · by_cases hv : slurp (begin b s).fs ('/' :: name) = []
      · simp [hn, hv]
      · simp [hn, hv]
  refine ⟨hs, hi, toInt_longToStr, ?_, ?_, fun h => (begin_fs b s h).1⟩
  · intro init h0
    rw [hs init]
    simp [h0]
  · intro init hlo hhi h0
    rw [hi init]
    simp [h0, toInt_longToStr init hlo hhi]

/-- On an empty filesystem `string("deviceName", "", "Device Name")` registers
`deviceNameParam` and `integer("port", 1, 65535, 8080, "Port")` registers `portParam`. -/
theorem registration_scenarios :
    (string plainBuild freshSettings "deviceName".toList [] "Device Name".toList).2.params
      = [deviceNameParam] ∧
    (integerRange plainBuild freshSettings "port".toList 1 65535 8080 "Port".toList).2.params
      = [portParam] := by
  constructor <;> rfl

/-- C7 at the scenario of the specification: `integer("port", 8080, "Port")` on an empty
filesystem returns 8080. -/
theorem registration_returns_effective_value_witness :
    (integer plainBuild freshSettings "port".toList 8080 "Port".toList).1 = 8080 :=
  (registration_returns_effective_value plainBuild freshSettings "port".toList
    "Port".toList).2.2.2.2.1 8080 (by decide) (by decide) (by decide)

/-! ## `String::replace` -/

theorem isPrefixOf_cons_ne (f0 c : Char) (body cs : Str) (h : c ≠ f0) :
    (f0 :: body).isPrefixOf (c :: cs) = false := by
  simp [List.isPrefixOf, Ne.symm h]

theorem replaceL_drop (find rep : Str) (s : Str) :
    ∀ k, replaceL find rep k s = replaceL find rep 0 (s.drop k) := by
  induction s with
  | nil => intro k; cases k <;> rfl
  | cons c cs ih =>
    intro k
    cases k with
    | zero => rfl
    | succ k => simp only [replaceL, List.drop_succ_cons]; exact ih k

theorem replaceL_cons (find rep : Str) (c : Char) (cs : Str) :
    replaceL find rep 0 (c :: cs) =
      if find.isPrefixOf (c :: cs) then rep ++ replaceL find rep 0 (cs.drop (find.length - 1))
      else c :: replaceL find rep 0 cs := by
  simp only [replaceL]
  rw [replaceL_drop find rep cs (find.length - 1)]

/-- Both branches of `replace` on a non-empty `find`. -/
theorem replace_eq (s find rep : Str) (hf : find ≠ []) :
    replace s find rep =
      if rep.length ≤ find.length then replaceL find rep 0 s else replaceR find rep s := by
  unfold replace
  have hl : find.length ≠ 0 := fun h => hf (List.length_eq_zero.mp h)
  cases s with
  | nil => simp [replaceL, replaceR]
  | cons c cs => simp [hl]

theorem replace_nil (find rep : Str) : replace [] find rep = [] := by
  simp [replace]

/-- A character other than the first of `find` is copied. -/
theorem replace_cons_ne (f0 c : Char) (body rep cs : Str) (h : c ≠ f0) :
    replace (c :: cs) (f0 :: body) rep = c :: replace cs (f0 :: body) rep := by
  rw [replace_eq _ _ _ (List.cons_ne_nil _ _), replace_eq _ _ _ (List.cons_ne_nil _ _)]
  split
  · rw [replaceL_cons, isPrefixOf_cons_ne f0 c body cs h]
    rfl
  · show (if (f0 :: body).isPrefixOf (c :: replaceR (f0 :: body) rep cs) = true then _ else _) = _
    rw [isPrefixOf_cons_ne f0 c body _ h]
    rfl

/-- A run of characters without the first character of `find` is copied. -/
theorem replace_skip (f0 : Char) (body rep : Str) (a b : Str) (h : ∀ c ∈ a, c ≠ f0) :
    replace (a ++ b) (f0 :: body) rep = a ++ replace b (f0 :: body) rep := by
  induction a with
  | nil => rfl
  | cons c cs ih =>
    rw [List.cons_append, replace_cons_ne f0 c body rep _ (h c (List.mem_cons_self c cs)),
      ih (fun x hx => h x (List.mem_cons_of_mem c hx))]
    rfl

/-- Text without the first character of `find` is left as it is. -/
theorem replace_none (f0 : Char) (body rep : Str) (a : Str) (h : ∀ c ∈ a, c ≠ f0) :
    replace a (f0 :: body) rep = a := by
  have := replace_skip f0 body rep a [] h
  rwa [List.append_nil, replace_nil, List.append_nil] at this

theorem isPrefixOf_append_self (a b : Str) : a.isPrefixOf (a ++ b) = true := by
  induction a with
  | nil => simp [List.isPrefixOf]
  | cons c cs ih => simp [List.isPrefixOf, ih]

/-- An occurrence of `find`, whose first character does not come back inside it, is
replaced. -/
theorem replace_match (f0 : Char) (body rep rest : Str) (hb : ∀ c ∈ body, c ≠ f0) :
    replace ((f0 :: body) ++ rest) (f0 :: body) rep = rep ++ replace rest (f0 :: body) rep := by
  rw [replace_eq _ _ _ (List.cons_ne_nil _ _), replace_eq _ _ _ (List.cons_ne_nil _ _)]
  split
  · rw [List.cons_append, replaceL_cons]
    have h1 : (f0 :: body).isPrefixOf (f0 :: (body ++ rest)) = true :=
      isPrefixOf_append_self (f0 :: body) rest
    rw [h1]
    simp
  · rename_i hlen
    have hR : replaceR (f0 :: body) rep (body ++ rest) = body ++ replaceR (f0 :: body) rep rest := by
      have := replace_skip f0 body rep body rest hb
      rw [replace_eq _ _ _ (List.cons_ne_nil _ _), replace_eq _ _ _ (List.cons_ne_nil _ _),
        if_neg hlen, if_neg hlen] at this
      exact this
    rw [List.cons_append]
    show (if (f0 :: body).isPrefixOf (f0 :: replaceR (f0 :: body) rep (body ++ rest)) = true
      then rep ++ (f0 :: replaceR (f0 :: body) rep (body ++ rest)).drop (f0 :: body).length
      else _) = _
    rw [hR]
    have h1 : (f0 :: body).isPrefixOf (f0 :: (body ++ replaceR (f0 :: body) rep rest)) = true :=
      isPrefixOf_append_self (f0 :: body) _
    rw [h1]
    simp

/-- The first character of `find` followed by a character that is neither the second of
`find` nor its first: both are copied. -/
theorem replace_near (f0 f1 c0 c1 : Char) (body rep rest : Str) (h1 : c1 ≠ f1) (h0 : c1 ≠ f0) :
    replace (c0 :: c1 :: rest) (f0 :: f1 :: body) rep
      = c0 :: c1 :: replace rest (f0 :: f1 :: body) rep := by
  have hp : ∀ t : Str, (f0 :: f1 :: body).isPrefixOf (c0 :: c1 :: t) = false := by
    intro t
    simp [List.isPrefixOf, Ne.symm h1]
  rw [← replace_cons_ne f0 c1 (f1 :: body) rep rest h0]
  rw [replace_eq _ _ _ (List.cons_ne_nil _ _), replace_eq _ _ _ (List.cons_ne_nil _ _)]
  split
  · rw [replaceL_cons, hp]
    rfl
  · rename_i hlen
    have hR : replaceR (f0 :: f1 :: body) rep (c1 :: rest)
        = c1 :: replaceR (f0 :: f1 :: body) rep rest := by
      have := replace_cons_ne f0 c1 (f1 :: body) rep rest h0
      rw [replace_eq _ _ _ (List.cons_ne_nil _ _), replace_eq _ _ _ (List.cons_ne_nil _ _),
        if_neg hlen, if_neg hlen] at this
      exact this
    show (if (f0 :: f1 :: body).isPrefixOf (c0 :: replaceR (f0 :: f1 :: body) rep (c1 :: rest))
      = true then _ else _) = _
    rw [hR, hp]
    rfl

/-! ## Tags of the markup -/

theorem tagsOk_ne_cons (c : Char) (r : Str) (h : c ≠ '<') : tagsOk (c :: r) = tagsOk r := by
  simp [tagsOk, h]

theorem tagsOk_lt_cons (x : Char) (r : Str) :
    tagsOk ('<' :: x :: r) = ((x ≠ 'o' && x ≠ Char.ofNat 123) && tagsOk (x :: r)) := by
  simp [tagsOk]

theorem tagsOk_tail (c : Char) (cs : Str) (h : tagsOk (c :: cs) = true) : tagsOk cs = true := by
  unfold tagsOk at h
  exact (Bool.and_eq_true _ _ ▸ h).2

theorem tagsOk_drop (s : Str) : ∀ k, tagsOk s = true → tagsOk (s.drop k) = true := by
  induction s with
  | nil => intro k h; simpa using h
  | cons c cs ih =>
    intro k h
    cases k with
    | zero => exact h
    | succ k => exact ih k (tagsOk_tail c cs h)

theorem tagsOk_append_noLt (a b : Str) (ha : ∀ c ∈ a, c ≠ '<') (hb : tagsOk b = true) :
    tagsOk (a ++ b) = true := by
  induction a with
  | nil => exact hb
  | cons c cs ih =>
    rw [List.cons_append, tagsOk_ne_cons c _ (ha c (List.mem_cons_self c cs))]
    exact ih (fun x hx => ha x (List.mem_cons_of_mem c hx))

theorem tagsOk_noLt (a : Str) (ha : ∀ c ∈ a, c ≠ '<') : tagsOk a = true := by
  have := tagsOk_append_noLt a [] ha rfl
  rwa [List.append_nil] at this

/-- Putting a character in front of a rewritten tail keeps `tagsOk`, when the rewriting
keeps a first character that is not the opening brace. -/
theorem tagsOk_cons_of_head (c : Char) (cs Y : Str) (h : tagsOk (c :: cs) = true)
    (hY : tagsOk Y = true)
    (hhead : ∀ x r, cs = x :: r → x ≠ Char.ofNat 123 → ∃ r1, Y = x :: r1) :
    tagsOk (c :: Y) = true := by
  by_cases hc : c = '<'
  · subst hc
    cases cs with
    | nil => simp [tagsOk] at h
    | cons x r =>
      rw [tagsOk_lt_cons] at h
      simp only [Bool.and_eq_true, bne_iff_ne, ne_eq, decide_eq_true_eq, Bool.not_eq_true,
        decide_not] at h
      obtain ⟨r1, hr1⟩ := hhead x r rfl (by simpa using h.1.2)
      subst hr1
      rw [tagsOk_lt_cons, hY]
      simpa using h.1
  · rw [tagsOk_ne_cons c Y hc]
    exact hY

theorem replaceL_tagsOk (body rep : Str) (hrep : ∀ c ∈ rep, c ≠ '<') :
    ∀ (n : Nat) (s : Str), s.length ≤ n → tagsOk s = true →
      tagsOk (replaceL (Char.ofNat 123 :: body) rep 0 s) = true := by
  intro n
  induction n with
  | zero =>
    intro s hs _
    have : s = [] := List.length_eq_zero.mp (Nat.le_zero.mp hs)
    subst this
    rfl
  | succ n ih =>
    intro s hs h
    cases s with
    | nil => rfl
    | cons c cs =>
      rw [replaceL_cons]
      have hcs : cs.length ≤ n := by simpa using hs
      split
      · apply tagsOk_append_noLt _ _ hrep
        apply ih
        · rw [List.length_drop]; omega
        · exact tagsOk_drop cs _ (tagsOk_tail c cs h)
      · apply tagsOk_cons_of_head c cs _ h (ih cs hcs (tagsOk_tail c cs h))
        intro x r hx hne
        subst hx
        exact ⟨_, by rw [replaceL_cons, isPrefixOf_cons_ne _ x body r hne]; rfl⟩

theorem replaceR_tagsOk (body rep : Str) (hrep : ∀ c ∈ rep, c ≠ '<') :
    ∀ s : Str, tagsOk s = true → tagsOk (replaceR (Char.ofNat 123 :: body) rep s) = true := by
  intro s
  induction s with
  | nil => intro _; rfl
  | cons c cs ih =>
    intro h
    have hY := ih (tagsOk_tail c cs h)
    have hcY : tagsOk (c :: replaceR (Char.ofNat 123 :: body) rep cs) = true := by
      apply tagsOk_cons_of_head c cs _ h hY
      intro x r hx hne
      subst hx
      refine ⟨replaceR (Char.ofNat 123 :: body) rep r, ?_⟩
      show (if (Char.ofNat 123 :: body).isPrefixOf (x :: replaceR (Char.ofNat 123 :: body) rep r)
        = true then _ else _) = _
      rw [isPrefixOf_cons_ne _ x body _ hne]
      rfl
    show tagsOk (if (Char.ofNat 123 :: body).isPrefixOf
        (c :: replaceR (Char.ofNat 123 :: body) rep cs) = true
      then rep ++ (c :: replaceR (Char.ofNat 123 :: body) rep cs).drop
        (Char.ofNat 123 :: body).length
      else c :: replaceR (Char.ofNat 123 :: body) rep cs) = true
    split
    · exact tagsOk_append_noLt _ _ hrep (tagsOk_drop _ _ hcY)
    · exact hcY

/-- Filling a placeholder with text that has no `<` opens no `<option`. -/
theorem replace_tagsOk (s body rep : Str) (hrep : ∀ c ∈ rep, c ≠ '<') (h : tagsOk s = true) :
    tagsOk (replace s (Char.ofNat 123 :: body) rep) = true := by
  rw [replace_eq _ _ _ (List.cons_ne_nil _ _)]
  split
  · exact replaceL_tagsOk body rep hrep s.length s (Nat.le_refl _) h
  · exact replaceR_tagsOk body rep hrep s h

theorem natToStr_isdigit (n : Nat) : ∀ c ∈ natToStr n, isdigit c = true :=
  natDigits_isdigit (n + 1) n

theorem html_entities_noLt (raw : Str) : ∀ c ∈ html_entities raw, c ≠ '<' := by
  induction raw with
  | nil => intro c hc; simp [html_entities] at hc
  | cons a as ih =>
    intro c hc
    unfold html_entities at hc
    rcases List.mem_append.mp hc with h | h
    · split at h
      · rcases List.mem_append.mp h with h1 | h1
        · rcases List.mem_append.mp h1 with h2 | h2
          · have : c = '&' ∨ c = '#' := by simpa using h2
            rcases this with h3 | h3 <;> subst h3 <;> decide
          · have hd := natToStr_isdigit _ c h2
            intro h0
            subst h0
            exact absurd hd (by decide)
        · have : c = ';' := by simpa using h1
          subst this
          decide
      · rename_i hne
        rw [List.mem_singleton] at h
        subst h
        intro h0
        subst h0
        exact hne (by decide)
    · exact ih c h

theorem dropdownHead_tagsOk (p : Param) : tagsOk (dropdownHead p) = true := by
  unfold dropdownHead
  apply replace_tagsOk _ "label\x7d".toList _ (html_entities_noLt _)
  apply replace_tagsOk _ "value\x7d".toList _ (html_entities_noLt _)
  apply replace_tagsOk _ "name\x7d".toList _ (html_entities_noLt _)
  decide

/-! ## Counting the selected options -/

theorem countSelected_tagsOk (a b : Str) (h : tagsOk a = true) :
    countSelected (a ++ b) = countSelected b := by
  induction a with
  | nil => rfl
  | cons c cs ih =>
    have hno : isSelectedOption (c :: (cs ++ b)) = false := by
      have hopt : "<option".toList = '<' :: 'o' :: "ption".toList := rfl
      unfold isSelectedOption
      rw [hopt]
      by_cases hc : c = '<'
      · subst hc
        cases cs with
        | nil => simp [tagsOk] at h
        | cons x r =>
          rw [tagsOk_lt_cons] at h
          have hx : x ≠ 'o' := by
            simp only [Bool.and_eq_true, bne_iff_ne, ne_eq, decide_eq_true_eq, decide_not,
              Bool.not_eq_true'] at h
            simpa using h.1.1
          simp [List.isPrefixOf, Ne.symm hx]
      · rw [isPrefixOf_cons_ne '<' c _ _ hc]
        rfl
    rw [List.cons_append]
    show (if isSelectedOption (c :: (cs ++ b)) = true then 1 else 0) + countSelected (cs ++ b) = _
    rw [hno, ih (tagsOk_tail c cs h)]
    simp

theorem tagText_stop (a rest : Str) (h : ∀ c ∈ a, c ≠ '>') :
    tagText (a ++ '>' :: rest) = a := by
  unfold tagText
  induction a with
  | nil => simp [List.takeWhile]
  | cons c cs ih =>
    have hc := h c (List.mem_cons_self c cs)
    rw [List.cons_append, List.takeWhile_cons]
    simp only [ne_eq, hc, not_false_eq_true, decide_True, if_true]
    rw [ih (fun x hx => h x (List.mem_cons_of_mem c hx))]

theorem hasInfix_cons (pat : Str) (c : Char) (cs : Str) :
    hasInfix pat (c :: cs) = (pat.isPrefixOf (c :: cs) || hasInfix pat cs) := rfl

theorem hasInfix_skip (p0 : Char) (ps a b : Str) (h : ∀ c ∈ a, c ≠ p0) :
    hasInfix (p0 :: ps) (a ++ b) = hasInfix (p0 :: ps) b := by
  induction a with
  | nil => rfl
  | cons c cs ih =>
    rw [List.cons_append, hasInfix_cons,
      isPrefixOf_cons_ne p0 c ps _ (h c (List.mem_cons_self c cs)),
      ih (fun x hx => h x (List.mem_cons_of_mem c hx))]
    rfl

theorem hasInfix_near (p0 p1 c0 c1 : Char) (ps rest : Str) (h1 : c1 ≠ p1) (h0 : c1 ≠ p0) :
    hasInfix (p0 :: p1 :: ps) (c0 :: c1 :: rest) = hasInfix (p0 :: p1 :: ps) rest := by
  rw [hasInfix_cons, hasInfix_cons, isPrefixOf_cons_ne p0 c1 _ _ h0]
  simp [List.isPrefixOf, Ne.symm h1]

theorem hasInfix_append_left (pat a b : Str) (h : hasInfix pat b = true) :
    hasInfix pat (a ++ b) = true := by
  induction a with
  | nil => exact h
  | cons c cs ih => rw [List.cons_append, hasInfix_cons, ih]; simp

theorem isdigit_ne (c x : Char) (hc : isdigit c = true) (hx : isdigit x = false) : c ≠ x := by
  intro h
  subst h
  rw [hc] at hx
  exact absurd hx (by decide)

/-- The markup of one option, its placeholders filled: the number, the mark `selected` when
the number is the value, and the label, in which the placeholder of the mark is filled too. -/
theorem dropdownOption_eq (value : Str) (i : Nat) (o : Str) :
    dropdownOption value i o =
      "<option value='".toList ++ (natToStr i ++ ("'".toList ++
        ((if natToStr i = value then " selected".toList else []) ++ (">".toList ++
          replace (o ++ "</option>".toList) "{sel}".toList
            (if natToStr i = value then " selected".toList else []))))) := by
  have hd : ∀ x : Char, isdigit x = false → ∀ c ∈ natToStr i, c ≠ x :=
    fun x hx c hc => isdigit_ne c x (natToStr_isdigit i c hc) hx
  have hdb := hd (Char.ofNat 123) (by decide)
  unfold dropdownOption
  generalize (if natToStr i = value then " selected".toList else []) = sel
  have hcode : "{code}".toList = Char.ofNat 123 :: 'c' :: "ode\x7d".toList := rfl
  have hname : "{name}".toList = Char.ofNat 123 :: 'n' :: "ame\x7d".toList := rfl
  have hsel : "{sel}".toList = Char.ofNat 123 :: 's' :: "el\x7d".toList := rfl
  have hT : "<option value='{code}'{sel}>{name}</option>".toList =
      "<option value='".toList ++ ((Char.ofNat 123 :: 'c' :: "ode\x7d".toList) ++ ("'".toList ++
        (Char.ofNat 123 :: 's' :: ("el\x7d>".toList ++
          (Char.ofNat 123 :: 'n' :: "ame\x7d</option>".toList))))) := rfl
  have h1 : replace "<option value='{code}'{sel}>{name}</option>".toList "{code}".toList
      (natToStr i) = "<option value='".toList ++ (natToStr i ++ ("'".toList ++
        (Char.ofNat 123 :: 's' :: ("el\x7d>".toList ++
          ((Char.ofNat 123 :: 'n' :: "ame\x7d".toList) ++ "</option>".toList))))) := by
    rw [hT, hcode, replace_skip _ _ _ _ _ (by decide), replace_match _ _ _ _ (by decide),
      replace_skip _ _ _ _ _ (by decide), replace_near _ _ _ _ _ _ _ (by decide) (by decide),
      replace_skip _ _ _ _ _ (by decide), replace_near _ _ _ _ _ _ _ (by decide) (by decide),
      replace_none _ _ _ _ (by decide)]
    rfl
  have h2 : replace ("<option value='".toList ++ (natToStr i ++ ("'".toList ++
        (Char.ofNat 123 :: 's' :: ("el\x7d>".toList ++
          ((Char.ofNat 123 :: 'n' :: "ame\x7d".toList) ++ "</option>".toList))))))
      "{name}".toList o = "<option value='".toList ++ (natToStr i ++ ("'".toList ++
        ((Char.ofNat 123 :: 's' :: "el\x7d".toList) ++ (">".toList ++
          (o ++ "</option>".toList))))) := by
    rw [hname, replace_skip _ _ _ _ _ (by decide), replace_skip _ _ _ _ _ hdb,
      replace_skip _ _ _ _ _ (by decide), replace_near _ _ _ _ _ _ _ (by decide) (by decide),
      replace_skip _ _ _ _ _ (by decide), replace_match _ _ _ _ (by decide),
      replace_none _ _ _ _ (by decide)]
    rfl
  rw [h1, h2, hsel, replace_skip _ _ _ _ _ (by decide), replace_skip _ _ _ _ _ hdb,
    replace_skip _ _ _ _ _ (by decide), replace_match _ _ _ _ (by decide),
    replace_skip _ _ _ _ _ (by decide)]

theorem isSelectedOption_option (d sel X : Str) (hd : ∀ c ∈ d, isdigit c = true)
    (hsel : sel = " selected".toList ∨ sel = []) :
    isSelectedOption ("<option value='".toList ++ (d ++ ("'".toList ++ (sel ++
      (">".toList ++ X))))) = decide (sel = " selected".toList) := by
  have hdx : ∀ x : Char, isdigit x = false → ∀ c ∈ d, c ≠ x :=
    fun x hx c hc => isdigit_ne c x (hd c hc) hx
  have hpre : "<option".toList.isPrefixOf ("<option value='".toList ++ (d ++ ("'".toList ++
      (sel ++ (">".toList ++ X))))) = true :=
    isPrefixOf_append_self "<option".toList (" value='".toList ++ (d ++ ("'".toList ++
      (sel ++ (">".toList ++ X)))))
  have hre : "<option value='".toList ++ (d ++ ("'".toList ++ (sel ++ (">".toList ++ X))))
      = ("<option value='".toList ++ (d ++ ("'".toList ++ sel))) ++ '>' :: X := by
    simp [List.append_assoc]
  have hselgt : ∀ c ∈ sel, c ≠ '>' := by
    rcases hsel with h | h <;> subst h <;> decide
  have htag : tagText ("<option value='".toList ++ (d ++ ("'".toList ++ (sel ++
      (">".toList ++ X))))) = "<option value='".toList ++ (d ++ ("'".toList ++ sel)) := by
    rw [hre]
    apply tagText_stop
    intro c hc
    rcases List.mem_append.mp hc with h | h
    · exact (by decide : ∀ c ∈ "<option value='".toList, c ≠ '>') c h
    · rcases List.mem_append.mp h with h | h
      · exact hdx '>' (by decide) c h
      · rcases List.mem_append.mp h with h | h
        · exact (by decide : ∀ c ∈ "'".toList, c ≠ '>') c h
        · exact hselgt c h
  unfold isSelectedOption
  rw [hpre, htag, Bool.true_and]
  have hpat : " selected".toList = ' ' :: 's' :: "elected".toList := rfl
  rcases hsel with h | h
  · subst h
    rw [show "<option value='".toList ++ (d ++ ("'".toList ++ " selected".toList))
        = ("<option value='".toList ++ (d ++ "'".toList)) ++ " selected".toList by
      simp [List.append_assoc]]
    rw [hasInfix_append_left _ _ _ (by decide)]
    simp
  · subst h
    have hA : "<option value='".toList ++ (d ++ ("'".toList ++ []))
        = "<option".toList ++ (' ' :: 'v' :: (("alue='".toList ++ (d ++ "'".toList)) ++ [])) := by
      simp
    rw [hA, hpat, hasInfix_skip _ _ _ _ (by decide),
      hasInfix_near _ _ _ _ _ _ (by decide) (by decide), hasInfix_skip]
    · rfl
    · intro c hc
      rcases List.mem_append.mp hc with h | h
      · exact (by decide : ∀ c ∈ "alue='".toList, c ≠ ' ') c h
      · rcases List.mem_append.mp h with h | h
        · exact hdx ' ' (by decide) c h
        · exact (by decide : ∀ c ∈ "'".toList, c ≠ ' ') c h

/-- One option whose label has no `<` adds one to the count when it carries the mark and
nothing otherwise. -/
theorem countSelected_option (value : Str) (i : Nat) (o rest : Str) (ho : ∀ c ∈ o, c ≠ '<') :
    countSelected (dropdownOption value i o ++ rest)
      = (if natToStr i = value then 1 else 0) + countSelected rest := by
  have hsel : (if natToStr i = value then " selected".toList else [])
      = " selected".toList ∨ (if natToStr i = value then " selected".toList else []) = [] := by
    split
    · exact Or.inl rfl
    · exact Or.inr rfl
  have hselLt : ∀ c ∈ (if natToStr i = value then " selected".toList else []), c ≠ '<' := by
    split <;> decide
  have hW : tagsOk (replace (o ++ "</option>".toList) "{sel}".toList
      (if natToStr i = value then " selected".toList else [])) = true :=
    replace_tagsOk _ "sel\x7d".toList _ hselLt (tagsOk_append_noLt o _ ho (by decide))
  have hdLt : ∀ c ∈ natToStr i, c ≠ '<' :=
    fun c hc => isdigit_ne c '<' (natToStr_isdigit i c hc) (by decide)
  have hM : tagsOk ("option value='".toList ++ (natToStr i ++ ("'".toList ++
      ((if natToStr i = value then " selected".toList else []) ++ (">".toList ++
        replace (o ++ "</option>".toList) "{sel}".toList
          (if natToStr i = value then " selected".toList else [])))))) = true := by
    apply tagsOk_append_noLt _ _ (by decide)
    apply tagsOk_append_noLt _ _ hdLt
    apply tagsOk_append_noLt _ _ (by decide)
    apply tagsOk_append_noLt _ _ hselLt
    exact tagsOk_append_noLt _ _ (by decide) hW
  have hfirst := isSelectedOption_option (natToStr i)
    (if natToStr i = value then " selected".toList else [])
    (replace (o ++ "</option>".toList) "{sel}".toList
      (if natToStr i = value then " selected".toList else []) ++ rest)
    (natToStr_isdigit i) hsel
  rw [dropdownOption_eq]
  have hshape : "<option value='".toList ++ (natToStr i ++ ("'".toList ++
      ((if natToStr i = value then " selected".toList else []) ++ (">".toList ++
        replace (o ++ "</option>".toList) "{sel}".toList
          (if natToStr i = value then " selected".toList else []))))) ++ rest
      = "<option value='".toList ++ (natToStr i ++ ("'".toList ++
      ((if natToStr i = value then " selected".toList else []) ++ (">".toList ++
        (replace (o ++ "</option>".toList) "{sel}".toList
          (if natToStr i = value then " selected".toList else []) ++ rest))))) := by
    simp [List.append_assoc]
  have hcount : ∀ Y : Str, countSelected ("<option value='".toList ++ Y)
      = (if isSelectedOption ("<option value='".toList ++ Y) = true then 1 else 0)
        + countSelected ("option value='".toList ++ Y) := fun _ => rfl
  rw [hshape, hcount, hfirst]
  have htail : "option value='".toList ++ (natToStr i ++ ("'".toList ++
      ((if natToStr i = value then " selected".toList else []) ++ (">".toList ++
        (replace (o ++ "</option>".toList) "{sel}".toList
          (if natToStr i = value then " selected".toList else []) ++ rest)))))
      = "option value='".toList ++ (natToStr i ++ ("'".toList ++
      ((if natToStr i = value then " selected".toList else []) ++ (">".toList ++
        replace (o ++ "</option>".toList) "{sel}".toList
          (if natToStr i = value then " selected".toList else []))))) ++ rest := by
    simp [List.append_assoc]
  rw [htail, countSelected_tagsOk _ rest hM]
  by_cases hv : natToStr i = value
  · simp [hv]
  · simp [hv]

theorem natToStr_injective (a b : Nat) (h : natToStr a = natToStr b) : a = b := by
  have ha : digitsVal (natToStr a) = a := natDigits_val _ _ (Nat.lt_succ_self _)
  have hb : digitsVal (natToStr b) = b := natDigits_val _ _ (Nat.lt_succ_self _)
  rw [h, hb] at ha
  exact ha.symm

theorem natToStr_ne_nil (n : Nat) : natToStr n ≠ [] := by
  unfold natToStr natDigits
  split <;> simp

theorem dropdownOptions_append_cons (value : Str) (i : Nat) (o : Str) (os : List Str)
    (rest : Str) :
    dropdownOptions value i (o :: os) ++ rest
      = dropdownOption value i o ++ (dropdownOptions value (i + 1) os ++ rest) := by
  simp [dropdownOptions, List.append_assoc]

/-- When no index has the value as its decimal text, no option of the loop is marked. -/
theorem countSelected_options_none (value : Str) (os : List Str) :
    ∀ (i0 : Nat) (rest : Str), (∀ o ∈ os, ∀ c ∈ o, c ≠ '<') →
      (∀ j, j < os.length → natToStr (i0 + j) ≠ value) →
      countSelected (dropdownOptions value i0 os ++ rest) = countSelected rest := by
  induction os with
  | nil => intro i0 rest _ _; rfl
  | cons o os ih =>
    intro i0 rest hlab hno
    rw [dropdownOptions_append_cons,
      countSelected_option value i0 o _ (hlab o (List.mem_cons_self o os)),
      ih (i0 + 1) rest (fun x hx => hlab x (List.mem_cons_of_mem o hx))
        (fun j hj => by
          have := hno (j + 1) (by simpa using hj)
          rwa [show i0 + (j + 1) = i0 + 1 + j by omega] at this)]
    have h0 := hno 0 (by simp)
    simp only [Nat.add_zero] at h0
    simp [h0]

/-- When the value is the decimal text of an index of the loop, exactly one option is
marked. -/
theorem countSelected_options_one (k : Nat) (os : List Str) :
    ∀ (i0 : Nat) (rest : Str), (∀ o ∈ os, ∀ c ∈ o, c ≠ '<') → i0 ≤ k → k < i0 + os.length →
      countSelected (dropdownOptions (natToStr k) i0 os ++ rest) = 1 + countSelected rest := by
  induction os with
  | nil => intro i0 rest _ h1 h2; simp at h2; omega
  | cons o os ih =>
    intro i0 rest hlab h1 h2
    have hlab1 : ∀ x ∈ os, ∀ c ∈ x, c ≠ '<' := fun x hx => hlab x (List.mem_cons_of_mem o hx)
    rw [dropdownOptions_append_cons,
      countSelected_option (natToStr k) i0 o _ (hlab o (List.mem_cons_self o os))]
    by_cases hk : i0 = k
    · subst hk
      rw [countSelected_options_none (natToStr i0) os (i0 + 1) rest hlab1
        (fun j _ h => by have := natToStr_injective _ _ h; omega)]
      simp
    · have hne : natToStr i0 ≠ natToStr k := fun h => hk (natToStr_injective _ _ h)
      rw [ih (i0 + 1) rest hlab1 (by omega) (by simp at h2; omega)]
      simp [hne]

theorem dropdownHidden_none (init : Str) (os : List Str) :
    ∀ i0 : Nat, (∀ j, j < os.length → init ≠ natToStr (i0 + j)) →
      dropdownHidden init i0 os = [] := by
  induction os with
  | nil => intro i0 _; rfl
  | cons o os ih =>
    intro i0 hno
    have h0 := hno 0 (by simp)
    simp only [Nat.add_zero] at h0
    unfold dropdownHidden
    rw [if_neg (fun h => h0 h.symm), ih (i0 + 1) (fun j hj => by
      have := hno (j + 1) (by simpa using hj)
      rwa [show i0 + (j + 1) = i0 + 1 + j by omega] at this)]
    rfl

set_option maxRecDepth 1000000

/-- C8, as the claim states it, fails at two inputs. The single label of `markupDropdown` is
inserted into the markup as it is and carries an `<option ... selected>` of its own: the value
`0` is a valid index and the markup has two options marked `selected`. The value `01` of
`paddedDropdown` reads as the index 1 of three options, yet it is the decimal text of no
index, and no option is marked. -/
theorem dropdown_selected_count_counterexample :
    (markupDropdown.value = natToStr 0 ∧ 0 < markupDropdown.options.length ∧
      countSelected (dropdownHtml markupDropdown) = 2) ∧
    (toInt paddedDropdown.value = 1 ∧ 1 < paddedDropdown.options.length ∧
      countSelected (dropdownHtml paddedDropdown) = 0) := by
  decide

/-- C8, amended: when no option label contains the character `<`, the markup of a dropdown
has exactly one option marked `selected` when the value is the decimal text of an index
within the options, and none when the value is empty and `init` is the decimal text of no
index. -/
theorem dropdown_selected_count (p : Param) (hlab : ∀ o ∈ p.options, ∀ c ∈ o, c ≠ '<') :
    (∀ k, k < p.options.length → p.value = natToStr k → countSelected (dropdownHtml p) = 1) ∧
    (p.value = [] → (∀ k, k < p.options.length → p.init ≠ natToStr k) →
      countSelected (dropdownHtml p) = 0) := by
  have hshape : ∀ hid : Str, dropdownHead p ++ hid ++ dropdownOptions p.value 0 p.options
      ++ "</select></label>".toList
      = dropdownHead p ++ (hid ++ (dropdownOptions p.value 0 p.options
        ++ "</select></label>".toList)) := by
    intro hid
    simp [List.append_assoc]
  have htail : countSelected "</select></label>".toList = 0 := by decide
  constructor
  · intro k hk hv
    have hne : p.value ≠ [] := by rw [hv]; exact natToStr_ne_nil k
    unfold dropdownHtml
    rw [if_neg hne, hshape, countSelected_tagsOk _ _ (dropdownHead_tagsOk p), List.nil_append,
      hv, countSelected_options_one k p.options 0 _ hlab (Nat.zero_le k) (by omega), htail]
  · intro hv hinit
    unfold dropdownHtml
    rw [if_pos hv, hshape, countSelected_tagsOk _ _ (dropdownHead_tagsOk p),
      dropdownHidden_none p.init p.options 0 (fun j hj => by simpa using hinit j hj),
      List.nil_append,
      countSelected_options_none p.value p.options 0 _ hlab
        (fun j _ h => natToStr_ne_nil (0 + j) (by rw [h, hv])), htail]

/-- C8, amended, at a dropdown with three plain labels and the value `1`. -/
theorem dropdown_selected_count_witness :
    countSelected (dropdownHtml (colourDropdown "1".toList [])) = 1 :=
  (dropdown_selected_count (colourDropdown "1".toList []) (by decide)).1 1 (by decide)
    (by decide)

set_option maxRecDepth 512

/-! ## The connection state machine -/

theorem run_succ (env : ConnectEnv) (a : ConnectArgs) (n : Nat) :
    ∀ m, run env a (n + 1) m = connectStep env a (run env a n m) := by
  induction n with
  | zero => intro m; rfl
  | succ n ih => intro m; exact ih (connectStep env a m)

theorem run_add (env : ConnectEnv) (a : ConnectArgs) (n k : Nat) :
    ∀ m, run env a (n + k) m = run env a k (run env a n m) := by
  induction n with
  | zero => intro m; simp [run]
  | succ n ih =>
    intro m
    rw [show n + 1 + k = (n + k) + 1 by omega]
    exact ih (connectStep env a m)

/-- Once inside the loop of `portal()`, the run stays there and calls `WiFi.begin` no more. -/
theorem run_portalLoop (env : ConnectEnv) (a : ConnectArgs) (n : Nat) :
    ∀ m, m.loc = Loc.portalLoop →
      (run env a n m).loc = Loc.portalLoop ∧ (run env a n m).begins = m.begins ∧
        (run env a n m).reissues = m.reissues := by
  induction n with
  | zero => intro m h; exact ⟨h, rfl, rfl⟩
  | succ n ih =>
    intro m h
    have hs : connectStep env a m = { m with clock := (m.clock + 1) % U32 } := by
      simp [connectStep, h]
    have := ih (connectStep env a m) (by rw [hs]; exact h)
    simp only [run]
    rw [hs] at this ⊢
    exact this

/-- Once returned, the run does nothing more. -/
theorem run_returned (env : ConnectEnv) (a : ConnectArgs) (ok : Bool) (n : Nat) :
    ∀ m, m.loc = Loc.returned ok → run env a n m = m := by
  induction n with
  | zero => intro m _; rfl
  | succ n ih =>
    intro m h
    have hs : connectStep env a m = m := by simp [connectStep, h]
    simp only [run]
    rw [hs]
    exact ih m h

/-- C9: with no stored network identity, `connect()` enters the portal with its first step
and stays in it, and `WiFi.begin` is called at no point of the run, whatever the portal flag,
the timeout and the clock are. -/
theorem connect_first_contact (env : ConnectEnv) (a : ConnectArgs) (t0 : Nat)
    (hssid : slurp env.fs "/wifi-ssid".toList = []) :
    ∀ n, (run env a (n + 1) (Machine.init t0)).loc = Loc.portalLoop ∧
      (run env a n (Machine.init t0)).begins = 0 := by
  have hstep : connectStep env a (Machine.init t0) = enterPortal (Machine.init t0) := by
    unfold connectStep
    simp only [Machine.init]
    rw [hssid]
    rfl
  intro n
  have h := run_portalLoop env a n (enterPortal (Machine.init t0)) rfl
  constructor
  · show (run env a n (connectStep env a (Machine.init t0))).loc = Loc.portalLoop
    rw [hstep]
    exact h.1
  · cases n with
    | zero => rfl
    | succ k =>
      show (run env a k (connectStep env a (Machine.init t0))).begins = 0
      rw [hstep]
      exact (run_portalLoop env a k (enterPortal (Machine.init t0)) rfl).2.1

/-- C9 on an empty filesystem, with the portal flag off and a timeout of 30 seconds: after
five steps the run is in the portal and has not called `WiFi.begin`. -/
theorem connect_first_contact_witness :
    slurp firstContact.fs "/wifi-ssid".toList = [] ∧
    (run firstContact { portal := false, wait_seconds := 30 } 5 (Machine.init 0)).loc
      = Loc.portalLoop ∧
    (run firstContact { portal := false, wait_seconds := 30 } 5 (Machine.init 0)).begins = 0 :=
  ⟨rfl,
   (connect_first_contact firstContact { portal := false, wait_seconds := 30 } 0 rfl 4).1,
   (connect_first_contact firstContact { portal := false, wait_seconds := 30 } 0 rfl 5).2⟩

/-! ### The wait loop with a network that never connects -/

theorem wait_ms_120 (pf : Bool) :
    wait_ms { portal := pf, wait_seconds := 120 } = 120000 := by
  show ((120 % 4294967296 : Int).toNat * 1000) % 4294967296 = 120000
  decide

/-- The difference of two readings of the clock is the time between them, when that is less
than the period of the clock. -/
theorem usub_mod (a b : Nat) (hba : b ≤ a) (hd : a - b < U32) :
    usub (a % U32) (b % U32) = a - b := by
  unfold usub
  rw [Nat.mod_mod, Nat.mod_mod]
  unfold U32 at *
  have h1 := Nat.div_add_mod a 4294967296
  have h2 := Nat.div_add_mod b 4294967296
  have h3 := Nat.mod_lt a (show 0 < 4294967296 by decide)
  have h4 := Nat.mod_lt b (show 0 < 4294967296 by decide)
  generalize a % 4294967296 = ra at *
  generalize b % 4294967296 = rb at *
  generalize a / 4294967296 = qa at *
  generalize b / 4294967296 = qb at *
  by_cases h : rb ≤ ra
  · have : ra + 4294967296 - rb = (ra - rb) + 4294967296 := by omega
    rw [this, Nat.add_mod_right, Nat.mod_eq_of_lt (by omega)]
    omega
  · rw [Nat.mod_eq_of_lt (by omega)]
    omega

theorem usub_start (t0 d : Nat) (ht : t0 < U32) (hd : d < U32) :
    usub ((t0 + d) % U32) t0 = d := by
  have := usub_mod (t0 + d) t0 (by omega) (by omega)
  rw [Nat.mod_eq_of_lt ht] at this
  rw [this]
  omega

theorem clock_delay (t0 j : Nat) :
    ((t0 + 100 * j) % U32 + 100) % U32 = (t0 + 100 * (j + 1)) % U32 := by
  rw [Nat.mod_add_mod, show t0 + 100 * j + 100 = t0 + 100 * (j + 1) by omega]

theorem step_entry_dead (env : ConnectEnv) (a : ConnectArgs) (t0 : Nat) (ht : t0 < U32)
    (hssid : slurp env.fs "/wifi-ssid".toList ≠ []) (hnet : ∀ n, env.connected n = false) :
    connectStep env a (Machine.init t0) = waitingFirst t0 0 := by
  have hl : ¬ (slurp env.fs "/wifi-ssid".toList).length = 0 :=
    fun h => hssid (List.length_eq_zero.mp h)
  unfold connectStep
  simp only [Machine.init]
  rw [if_neg hl, hnet]
  simp only [waitingFirst, Nat.mod_eq_of_lt ht, Nat.mul_zero, Nat.add_zero]

theorem step_waitingFirst (env : ConnectEnv) (pf : Bool) (t0 j : Nat) (ht : t0 < U32)
    (hj : j < 601) (hnet : ∀ n, env.connected n = false) (hcb : env.onWaitLoop = none) :
    connectStep env { portal := pf, wait_seconds := 120 } (waitingFirst t0 j)
      = waitingFirst t0 (j + 1) := by
  have h1 : ¬ usub ((t0 + 100 * j) % U32) t0 > 60000 := by
    rw [usub_start t0 _ ht (by unfold U32; omega)]; omega
  have h2 : ¬ ((0 : Int) ≤ 120 ∧ usub ((t0 + 100 * (j + 1)) % U32) t0 > 120000) := by
    rw [usub_start t0 _ ht (by unfold U32; omega)]; omega
  unfold connectStep
  simp only [waitingFirst, waitBody, hcb, hnet, wait_ms_120, if_neg h1, clock_delay, if_neg h2,
    Bool.false_eq_true, if_false]

theorem step_reissue (env : ConnectEnv) (pf : Bool) (t0 : Nat) (ht : t0 < U32)
    (hnet : ∀ n, env.connected n = false) (hcb : env.onWaitLoop = none) :
    connectStep env { portal := pf, wait_seconds := 120 } (waitingFirst t0 601)
      = waitingSecond t0 602 := by
  have h1 : usub ((t0 + 100 * 601) % U32) t0 > 60000 := by
    rw [usub_start t0 _ ht (by decide)]; decide
  have h2 : ¬ ((0 : Int) ≤ 120 ∧ usub ((t0 + 100 * (601 + 1)) % U32) t0 > 120000) := by
    rw [usub_start t0 _ ht (by decide)]; decide
  unfold connectStep
  simp only [waitingFirst, waitBody, hcb, hnet, wait_ms_120, if_pos h1, clock_delay, if_neg h2,
    Bool.false_eq_true, if_false]
  rfl

theorem step_waitingSecond (env : ConnectEnv) (pf : Bool) (t0 j : Nat) (ht : t0 < U32)
    (hj1 : 602 ≤ j) (hj2 : j < 1200) (hnet : ∀ n, env.connected n = false)
    (hcb : env.onWaitLoop = none) :
    connectStep env { portal := pf, wait_seconds := 120 } (waitingSecond t0 j)
      = waitingSecond t0 (j + 1) := by
  have h1 : ¬ usub ((t0 + 100 * j) % U32) ((t0 + 60100) % U32) > 60000 := by
    rw [usub_mod _ _ (by omega) (by unfold U32; omega)]; omega
  have h2 : ¬ ((0 : Int) ≤ 120 ∧ usub ((t0 + 100 * (j + 1)) % U32) t0 > 120000) := by
    rw [usub_start t0 _ ht (by unfold U32; omega)]; omega
  unfold connectStep
  simp only [waitingSecond, waitBody, hcb, hnet, wait_ms_120, if_neg h1, clock_delay, if_neg h2,
    Bool.false_eq_true, if_false]

theorem step_timeout (env : ConnectEnv) (pf : Bool) (t0 : Nat) (ht : t0 < U32)
    (hnet : ∀ n, env.connected n = false) (hcb : env.onWaitLoop = none) :
    connectStep env { portal := pf, wait_seconds := 120 } (waitingSecond t0 1200)
      = afterWait { portal := pf, wait_seconds := 120 } (waitingOver t0) := by
  have h1 : ¬ usub ((t0 + 100 * 1200) % U32) ((t0 + 60100) % U32) > 60000 := by
    rw [usub_mod _ _ (by omega) (by unfold U32; omega)]; omega
  have h2 : (0 : Int) ≤ 120 ∧ usub ((t0 + 100 * (1200 + 1)) % U32) t0 > 120000 := by
    rw [usub_start t0 _ ht (by decide)]; decide
  unfold connectStep
  simp only [waitingSecond, waitBody, hcb, hnet, wait_ms_120, if_neg h1, clock_delay, if_pos h2,
    Bool.false_eq_true, if_false]
  rfl

theorem run_waitingFirst (env : ConnectEnv) (pf : Bool) (t0 : Nat) (ht : t0 < U32)
    (hnet : ∀ n, env.connected n = false) (hcb : env.onWaitLoop = none) :
    ∀ j, j ≤ 601 →
      run env { portal := pf, wait_seconds := 120 } j (waitingFirst t0 0) = waitingFirst t0 j := by
  intro j
  induction j with
  | zero => intro _; rfl
  | succ j ih =>
    intro hj
    rw [run_succ, ih (by omega)]
    exact step_waitingFirst env pf t0 j ht (by omega) hnet hcb

theorem run_waitingSecond (env : ConnectEnv) (pf : Bool) (t0 : Nat) (ht : t0 < U32)
    (hnet : ∀ n, env.connected n = false) (hcb : env.onWaitLoop = none) :
    ∀ k, 602 + k ≤ 1200 →
      run env { portal := pf, wait_seconds := 120 } k (waitingSecond t0 602)
        = waitingSecond t0 (602 + k) := by
  intro k
  induction k with
  | zero => intro _; rfl
  | succ k ih =>
    intro hk
    rw [run_succ, ih (by omega)]
    exact step_waitingSecond env pf t0 (602 + k) ht (by omega) (by omega) hnet hcb

theorem init_mod (t0 : Nat) : Machine.init (t0 % U32) = Machine.init t0 := by
  simp [Machine.init, Nat.mod_mod]

/-- The whole run against a network that never connects, pass by pass. -/
theorem dead_run (env : ConnectEnv) (pf : Bool) (t0 : Nat)
    (hssid : slurp env.fs "/wifi-ssid".toList ≠ []) (hnet : ∀ n, env.connected n = false)
    (hcb : env.onWaitLoop = none) :
    (∀ j, j ≤ 601 → run env { portal := pf, wait_seconds := 120 } (j + 1) (Machine.init t0)
      = waitingFirst (t0 % U32) j) ∧
    (∀ j, 602 ≤ j → j ≤ 1200 →
      run env { portal := pf, wait_seconds := 120 } (j + 1) (Machine.init t0)
        = waitingSecond (t0 % U32) j) ∧
    run env { portal := pf, wait_seconds := 120 } 1202 (Machine.init t0)
      = afterWait { portal := pf, wait_seconds := 120 } (waitingOver (t0 % U32)) := by
  have ht : t0 % U32 < U32 := Nat.mod_lt _ (by decide)
  have h0 : connectStep env { portal := pf, wait_seconds := 120 } (Machine.init t0)
      = waitingFirst (t0 % U32) 0 := by
    rw [← init_mod]
    exact step_entry_dead env _ _ ht hssid hnet
  have hA : ∀ j, j ≤ 601 → run env { portal := pf, wait_seconds := 120 } (j + 1)
      (Machine.init t0) = waitingFirst (t0 % U32) j := by
    intro j hj
    show run env _ j (connectStep env _ (Machine.init t0)) = _
    rw [h0]
    exact run_waitingFirst env pf _ ht hnet hcb j hj
  have h602 : run env { portal := pf, wait_seconds := 120 } 603 (Machine.init t0)
      = waitingSecond (t0 % U32) 602 := by
    rw [run_succ, hA 601 (Nat.le_refl _)]
    exact step_reissue env pf _ ht hnet hcb
  have hB : ∀ j, 602 ≤ j → j ≤ 1200 →
      run env { portal := pf, wait_seconds := 120 } (j + 1) (Machine.init t0)
        = waitingSecond (t0 % U32) j := by
    intro j h1 h2
    obtain ⟨k, rfl⟩ : ∃ k, j = 602 + k := ⟨j - 602, by omega⟩
    rw [show 602 + k + 1 = 603 + k by omega, run_add, h602]
    exact run_waitingSecond env pf _ ht hnet hcb k h2
  refine ⟨hA, hB, ?_⟩
  rw [run_succ, hB 1200 (by omega) (Nat.le_refl _)]
  exact step_timeout env pf _ ht hnet hcb

/-- C10: with stored credentials, a network that never reports connected, no `onWaitLoop`
callback (a delay of 100 ms per pass) and a timeout of 120 seconds, on a clock advanced only
by `delay` and started anywhere: the run waits for 1201 passes of the loop, the reconnect
branch is taken in pass 602 and in no other, and with step 1202 `connect()` returns false
when the portal flag is off and is inside the portal when it is on, having called
`WiFi.begin` twice; no reconnect happens afterwards. -/
theorem connect_wait_loop_reissues_once (env : ConnectEnv) (pf : Bool) (t0 : Nat)
    (hssid : slurp env.fs "/wifi-ssid".toList ≠ []) (hnet : ∀ n, env.connected n = false)
    (hcb : env.onWaitLoop = none) :
    (∀ n, 1 ≤ n → n ≤ 1201 →
      (run env { portal := pf, wait_seconds := 120 } n (Machine.init t0)).loc = Loc.waiting) ∧
    (∀ n, n ≤ 602 →
      (run env { portal := pf, wait_seconds := 120 } n (Machine.init t0)).reissues = 0) ∧
    (∀ n, 603 ≤ n →
      (run env { portal := pf, wait_seconds := 120 } n (Machine.init t0)).reissues = 1) ∧
    (∀ n, 1202 ≤ n →
      (run env { portal := pf, wait_seconds := 120 } n (Machine.init t0)).loc
        = if pf then Loc.portalLoop else Loc.returned false) ∧
    (∀ n, 1202 ≤ n →
      (run env { portal := pf, wait_seconds := 120 } n (Machine.init t0)).begins = 2) := by
  obtain ⟨hA, hB, hC⟩ := dead_run env pf t0 hssid hnet hcb
  have hEnd : ∀ n, 1202 ≤ n →
      (run env { portal := pf, wait_seconds := 120 } n (Machine.init t0)).loc
        = (if pf then Loc.portalLoop else Loc.returned false) ∧
      (run env { portal := pf, wait_seconds := 120 } n (Machine.init t0)).reissues = 1 ∧
      (run env { portal := pf, wait_seconds := 120 } n (Machine.init t0)).begins = 2 := by
    intro n hn
    obtain ⟨k, rfl⟩ : ∃ k, n = 1202 + k := ⟨n - 1202, by omega⟩
    rw [run_add, hC]
    cases pf with
    | true =>
      have := run_portalLoop env { portal := true, wait_seconds := 120 } k
        (afterWait { portal := true, wait_seconds := 120 } (waitingOver (t0 % U32))) rfl
      exact ⟨this.1, this.2.2, this.2.1⟩
    | false =>
      rw [run_returned env { portal := false, wait_seconds := 120 } false k _ rfl]
      exact ⟨rfl, rfl, rfl⟩
  refine ⟨?_, ?_, ?_, fun n hn => (hEnd n hn).1, fun n hn => (hEnd n hn).2.2⟩
  · intro n h1 h2
    obtain ⟨j, rfl⟩ : ∃ j, n = j + 1 := ⟨n - 1, by omega⟩
    by_cases hj : j ≤ 601
    · rw [hA j hj]; rfl
    · rw [hB j (by omega) (by omega)]; rfl
  · intro n hn
    cases n with
    | zero => rfl
    | succ j => rw [hA j (by omega)]; rfl
  · intro n hn
    by_cases h : n ≤ 1201
    · obtain ⟨j, rfl⟩ : ∃ j, n = j + 1 := ⟨n - 1, by omega⟩
      rw [hB j (by omega) (by omega)]; rfl
    · exact (hEnd n (by omega)).2.1

/-- C10 at a concrete network that never connects, the clock starting at 0 and the portal
flag off: at step 1202 `connect()` has returned false after exactly one reconnect. -/
theorem connect_wait_loop_reissues_once_witness :
    (run deadNetwork { portal := false, wait_seconds := 120 } 1202 (Machine.init 0)).loc
      = Loc.returned false ∧
    (run deadNetwork { portal := false, wait_seconds := 120 } 1202 (Machine.init 0)).reissues
      = 1 :=
  ⟨(connect_wait_loop_reissues_once deadNetwork false 0 (by decide) (fun _ => rfl) rfl).2.2.2.1
      1202 (Nat.le_refl _),
   (connect_wait_loop_reissues_once deadNetwork false 0 (by decide) (fun _ => rfl) rfl).2.2.1
      1202 (by decide)⟩

/-! ## The output of `html_entities` -/

theorem isMarkupChar_eq (c : Char) : isMarkupChar c = needsEntity c := by
  unfold isMarkupChar needsEntity
  by_cases h1 : c = '<' <;> by_cases h2 : c = '>' <;> by_cases h3 : c = '"' <;>
    by_cases h4 : c = Char.ofNat 39 <;> by_cases h5 : c = '&' <;>
    simp [h1, h2, h3, h4, h5]

/-- The text from the source is the text the specification describes. -/
theorem html_entities_eq_spec (raw : Str) : html_entities raw = entitiesSpec raw := by
  induction raw with
  | nil => rfl
  | cons c cs ih =>
    show (if needsEntity c then "&#".toList ++ natToStr c.toNat ++ ";".toList else [c])
        ++ html_entities cs
      = (if isMarkupChar c then '&' :: '#' :: (natToStr c.toNat ++ [';']) else [c])
        ++ entitiesSpec cs
    rw [ih, isMarkupChar_eq]
    rfl

/-- A character that is a decimal digit is printable, is below 0x7f and is none of the
characters of HTML syntax. -/
theorem isdigit_plain (c : Char) (h : isdigit c = true) :
    needsEntity c = false ∧ 33 ≤ c.toNat ∧ c.toNat < 127 ∧ c ≠ '&' := by
  have h1 : 48 ≤ c.toNat ∧ c.toNat ≤ 57 := by
    simpa [isdigit] using h
  refine ⟨?_, by omega, by omega, ?_⟩
  · unfold needsEntity
    have e1 : c ≠ '"' := fun e => by subst e; exact absurd h (by decide)
    have e2 : c ≠ '&' := fun e => by subst e; exact absurd h (by decide)
    have e3 : c ≠ Char.ofNat 39 := fun e => by subst e; exact absurd h (by decide)
    have e4 : c ≠ '<' := fun e => by subst e; exact absurd h (by decide)
    have e5 : c ≠ '>' := fun e => by subst e; exact absurd h (by decide)
    have e6 : ¬ c.toNat < 33 := by omega
    have e7 : ¬ c.toNat = 127 := by omega
    simp [e1, e2, e3, e4, e5, e6, e7]
  · intro e; subst e; exact absurd h (by decide)

/-- What `needsEntity c = false` says about a 7-bit character. -/
theorem plain_of_not_needsEntity (c : Char) (h : needsEntity c = false) (h7 : c.toNat < 128) :
    c ≠ '<' ∧ c ≠ '>' ∧ c ≠ '"' ∧ c ≠ Char.ofNat 39 ∧ c ≠ ' ' ∧ c ≠ '&' ∧
      33 ≤ c.toNat ∧ c.toNat < 127 := by
  unfold needsEntity at h
  simp only [Bool.or_eq_false_iff, decide_eq_false_iff_not] at h
  obtain ⟨⟨⟨⟨⟨⟨a1, a2⟩, a3⟩, a4⟩, a5⟩, a6⟩, a7⟩ := h
  have hsp : c ≠ ' ' := fun e => by subst e; exact a1 (by decide)
  exact ⟨a5, a6, a2, a4, hsp, a3, by omega, by omega⟩

/-- Every character that one input character contributes to the output is safe. -/
theorem piece_safe (c x : Char) (h7 : c.toNat < 128)
    (hx : x ∈ (if needsEntity c then "&#".toList ++ natToStr c.toNat ++ ";".toList else [c])) :
    x ≠ '<' ∧ x ≠ '>' ∧ x ≠ '"' ∧ x ≠ Char.ofNat 39 ∧ x ≠ ' ' ∧ 33 ≤ x.toNat ∧
      x.toNat < 127 := by
  split at hx
  · rcases List.mem_append.mp hx with h | h
    · rcases List.mem_append.mp h with h1 | h1
      · have : x = '&' ∨ x = '#' := by simpa using h1
        rcases this with e | e <;> subst e <;> decide
      · have hd := natToStr_isdigit _ x h1
        have hp := isdigit_plain x hd
        have := plain_of_not_needsEntity x hp.1 (by omega)
        exact ⟨this.1, this.2.1, this.2.2.1, this.2.2.2.1, this.2.2.2.2.1, hp.2.1, hp.2.2.1⟩
    · have : x = ';' := by simpa using h
      subst this
      decide
  · rename_i hne
    rw [List.mem_singleton] at hx
    subst hx
    have := plain_of_not_needsEntity x (by simpa using hne) h7
    exact ⟨this.1, this.2.1, this.2.2.1, this.2.2.2.1, this.2.2.2.2.1, this.2.2.2.2.2.2⟩

theorem html_entities_safe (raw : Str) (h7 : ∀ c ∈ raw, c.toNat < 128) :
    ∀ x ∈ html_entities raw, x ≠ '<' ∧ x ≠ '>' ∧ x ≠ '"' ∧ x ≠ Char.ofNat 39 ∧ x ≠ ' ' ∧
      33 ≤ x.toNat ∧ x.toNat < 127 := by
  induction raw with
  | nil => intro x hx; simp [html_entities] at hx
  | cons c cs ih =>
    intro x hx
    unfold html_entities at hx
    rcases List.mem_append.mp hx with h | h
    · exact piece_safe c x (h7 c (List.mem_cons_self c cs)) h
    · exact ih (fun y hy => h7 y (List.mem_cons_of_mem c hy)) x h

/-- A text that starts with a run free of `&` and has an `&` somewhere: the `&` lies behind
the run. -/
theorem split_after_run (u : Str) (hu : ∀ c ∈ u, c ≠ '&') :
    ∀ (v pre post : Str), u ++ v = pre ++ '&' :: post →
      ∃ w, pre = u ++ w ∧ v = w ++ '&' :: post := by
  induction u with
  | nil => intro v pre post h; exact ⟨pre, rfl, h⟩
  | cons y u ih =>
    intro v pre post h
    cases pre with
    | nil =>
      have : y = '&' := (List.cons.inj h).1
      exact absurd this (hu y (List.mem_cons_self y u))
    | cons z pre =>
      have h1 := List.cons.inj h
      obtain ⟨w, hw1, hw2⟩ := ih (fun c hc => hu c (List.mem_cons_of_mem y hc)) v pre post h1.2
      exact ⟨w, by rw [h1.1, hw1]; rfl, hw2⟩

theorem html_entities_cons_entity (x : Char) (xs : Str) (hx : needsEntity x = true) :
    html_entities (x :: xs) = '&' :: '#' :: (natToStr x.toNat ++ ';' :: html_entities xs) := by
  show (if needsEntity x then "&#".toList ++ natToStr x.toNat ++ ";".toList else [x])
    ++ html_entities xs = _
  rw [if_pos hx]
  show ['&', '#'] ++ natToStr x.toNat ++ [';'] ++ html_entities xs = _
  simp

theorem html_entities_cons_plain (x : Char) (xs : Str) (hx : ¬ needsEntity x = true) :
    html_entities (x :: xs) = x :: html_entities xs := by
  show (if needsEntity x then "&#".toList ++ natToStr x.toNat ++ ";".toList else [x])
    ++ html_entities xs = _
  rw [if_neg hx]
  rfl

/-- Every `&` of the output starts the numeric entity of one input character that needed
it: what stands before the `&` is the escaped text of the input before that character, and
what follows the entity is the escaped text of the input behind it. -/
theorem html_entities_amp (raw : Str) :
    ∀ (pre post : Str), html_entities raw = pre ++ '&' :: post →
      ∃ (a b : Str) (c : Char), raw = a ++ c :: b ∧ needsEntity c = true ∧
        pre = html_entities a ∧
        post = '#' :: (natToStr c.toNat ++ ';' :: html_entities b) := by
  induction raw with
  | nil => intro pre post h; simp [html_entities] at h
  | cons x xs ih =>
    intro pre post h
    by_cases hx : needsEntity x = true
    · rw [html_entities_cons_entity x xs hx] at h
      cases pre with
      | nil =>
        exact ⟨[], xs, x, rfl, hx, rfl, (List.cons.inj h).2.symm⟩
      | cons z pre =>
        have hrun : ∀ c ∈ '#' :: (natToStr x.toNat ++ [';']), c ≠ '&' := by
          intro c hc
          rcases List.mem_cons.mp hc with e | hc
          · subst e; decide
          · rcases List.mem_append.mp hc with hc | hc
            · exact (isdigit_plain c (natToStr_isdigit _ c hc)).2.2.2
            · rw [List.mem_singleton] at hc; subst hc; decide
        have h2 := List.cons.inj h
        have h3 : ('#' :: (natToStr x.toNat ++ [';'])) ++ html_entities xs
            = pre ++ '&' :: post := by
          have h4 : '#' :: (natToStr x.toNat ++ ';' :: html_entities xs)
              = pre ++ '&' :: post := h2.2
          rw [← h4]; simp
        obtain ⟨w, hw1, hw2⟩ := split_after_run _ hrun _ pre post h3
        obtain ⟨a, b, c, hr, hc, hpre, hpost⟩ := ih w post hw2
        refine ⟨x :: a, b, c, by rw [hr]; rfl, hc, ?_, hpost⟩
        rw [← h2.1, hw1, hpre, html_entities_cons_entity x a hx]
        simp
    · rw [html_entities_cons_plain x xs hx] at h
      have hxa : x ≠ '&' := fun e => hx (by subst e; decide)
      obtain ⟨w, hw1, hw2⟩ := split_after_run [x]
        (fun c hc => by rw [List.mem_singleton] at hc; subst hc; exact hxa) _ pre post h
      obtain ⟨a, b, c, hr, hc, hpre, hpost⟩ := ih w post hw2
      refine ⟨x :: a, b, c, by rw [hr]; rfl, hc, ?_, hpost⟩
      rw [hw1, hpre, html_entities_cons_plain x a hx]
      rfl

/-- C13: for an input of 7-bit characters, the output of `html_entities` has none of the
characters `<`, `>`, `"`, the apostrophe and the space, no control character below 0x21 and
no 0x7f; every `&` in it starts the numeric entity, with the decimal code, of the input
character it replaces; and the output is the input in order, each character copied unchanged
unless it is replaced by its entity. -/
theorem html_entities_markup_safe (raw : Str) (h7 : ∀ c ∈ raw, c.toNat < 128) :
    (∀ x ∈ html_entities raw, x ≠ '<' ∧ x ≠ '>' ∧ x ≠ '"' ∧ x ≠ Char.ofNat 39 ∧ x ≠ ' ' ∧
      33 ≤ x.toNat ∧ x.toNat < 127) ∧
    (∀ (pre post : Str), html_entities raw = pre ++ '&' :: post →
      ∃ (a b : Str) (c : Char), raw = a ++ c :: b ∧ needsEntity c = true ∧
        pre = html_entities a ∧
        post = '#' :: (natToStr c.toNat ++ ';' :: html_entities b)) ∧
    html_entities raw = entitiesSpec raw :=
  ⟨html_entities_safe raw h7, html_entities_amp raw, html_entities_eq_spec raw⟩

/-- C13 at a concrete input: the output for `a b<c>&` has no unsafe character and is the
text with four entities. -/
theorem html_entities_markup_safe_witness :
    (∀ x ∈ html_entities "a b<c>&".toList, x ≠ '<' ∧ x ≠ '>' ∧ x ≠ '"' ∧ x ≠ Char.ofNat 39 ∧
      x ≠ ' ' ∧ 33 ≤ x.toNat ∧ x.toNat < 127) ∧
    html_entities "a b<c>&".toList = "a&#32;b&#60;c&#62;&#38;".toList :=
  ⟨(html_entities_markup_safe "a b<c>&".toList (by decide)).1, by decide⟩

/-! ## The markup of a Password parameter -/

theorem secure_eq_replicate (s : Str) : secure s = List.replicate s.length ' ' := by
  induction s with
  | nil => rfl
  | cons c cs ih => simp [secure, ih, List.replicate_succ]

/-- The masked value shown for a secret: one entity of the space for each of its
characters. -/
theorem secure_rendered (s : Str) :
    html_entities (secure s)
      = (List.replicate s.length "&#32;".toList).foldr (fun a b => a ++ b) [] := by
  induction s with
  | nil => rfl
  | cons c cs ih =>
    show html_entities (' ' :: secure cs) = _
    rw [html_entities_cons_entity ' ' _ (by decide), ih, List.length_cons,
      List.replicate_succ, List.foldr_cons]
    rfl

/-- C11, as the claim states it, fails: the secrets `a` and `ab` are both non-empty and the
markup of the same Password parameter differs between them (one `&#32;` against two). -/
theorem password_html_counterexample :
    "a".toList ≠ [] ∧ "ab".toList ≠ [] ∧
      passwordHtml (secretParam "a".toList) ≠ passwordHtml (secretParam "ab".toList) ∧
      passwordHtml (secretParam "a".toList)
        = "<p><label>Token:<br><input type='password' name='token' value='&#32;' placeholder=''></label>".toList ∧
      passwordHtml (secretParam "ab".toList)
        = "<p><label>Token:<br><input type='password' name='token' value='&#32;&#32;' placeholder=''></label>".toList := by
  decide

/-- C11, amended: for every Password parameter and any two stored secrets of the same length
(all other fields equal), `html()` produces the same markup: the fragment shows no character
of the secret, only one masking entity for each of its characters. -/
theorem password_html_same_length (p : Param) (s1 s2 : Str) (h : s1.length = s2.length) :
    passwordHtml { p with value := s1 } = passwordHtml { p with value := s2 } := by
  unfold passwordHtml
  simp only [secure_eq_replicate, h]

/-- C11, amended, at the secrets `abc` and `xyz`. -/
theorem password_html_same_length_witness :
    passwordHtml { secretParam [] with value := "abc".toList }
      = passwordHtml { secretParam [] with value := "xyz".toList } :=
  password_html_same_length (secretParam []) "abc".toList "xyz".toList (by decide)

/-! ## The markup of a String parameter -/

/-- An occurrence of `find` that starts inside `a` cannot reach over a character that is not
in `find`. -/
theorem isPrefixOf_barrier (find : Str) :
    ∀ (a rest : Str) (c : Char), (∀ x ∈ find, x ≠ c) →
      find.isPrefixOf (a ++ c :: rest) = true → find.isPrefixOf a = true := by
  induction find with
  | nil => intro a rest c _ _; simp [List.isPrefixOf]
  | cons f fs ih =>
    intro a rest c hc h
    cases a with
    | nil =>
      simp only [List.nil_append, List.isPrefixOf, Bool.and_eq_true, beq_iff_eq] at h
      exact absurd h.1 (hc f (List.mem_cons_self f fs))
    | cons x a =>
      simp only [List.cons_append, List.isPrefixOf, Bool.and_eq_true, beq_iff_eq] at h ⊢
      exact ⟨h.1, ih a rest c (fun y hy => hc y (List.mem_cons_of_mem f hy)) h.2⟩

theorem isPrefixOf_barrier_false (find a rest : Str) (c : Char) (hc : ∀ x ∈ find, x ≠ c)
    (h : find.isPrefixOf a = false) : find.isPrefixOf (a ++ c :: rest) = false := by
  cases hp : find.isPrefixOf (a ++ c :: rest) with
  | false => rfl
  | true =>
    rw [isPrefixOf_barrier find a rest c hc hp] at h
    exact absurd h (by decide)

theorem hasInfix_false_cons (pat : Str) (x : Char) (a : Str)
    (h : hasInfix pat (x :: a) = false) :
    pat.isPrefixOf (x :: a) = false ∧ hasInfix pat a = false := by
  rw [hasInfix_cons, Bool.or_eq_false_iff] at h
  exact h

theorem replaceL_barrier (f0 : Char) (body rep rest : Str) (c : Char) (hc0 : c ≠ f0)
    (hcb : ∀ x ∈ body, x ≠ c) :
    ∀ a : Str, hasInfix (f0 :: body) a = false →
      replaceL (f0 :: body) rep 0 (a ++ c :: rest)
        = a ++ c :: replaceL (f0 :: body) rep 0 rest := by
  have hfind : ∀ x ∈ f0 :: body, x ≠ c := by
    intro x hx
    rcases List.mem_cons.mp hx with e | hx
    · subst e; exact Ne.symm hc0
    · exact hcb x hx
  intro a
  induction a with
  | nil =>
    intro _
    rw [List.nil_append, replaceL_cons, isPrefixOf_cons_ne f0 c body rest hc0]
    rfl
  | cons x a ih =>
    intro h
    obtain ⟨h1, h2⟩ := hasInfix_false_cons _ x a h
    rw [List.cons_append, replaceL_cons]
    have : (f0 :: body).isPrefixOf (x :: (a ++ c :: rest)) = false :=
      isPrefixOf_barrier_false (f0 :: body) (x :: a) rest c hfind h1
    rw [this, ih h2]
    rfl

theorem replaceR_barrier (f0 : Char) (body rep rest : Str) (c : Char) (hc0 : c ≠ f0)
    (hcb : ∀ x ∈ body, x ≠ c) :
    ∀ a : Str, hasInfix (f0 :: body) a = false →
      replaceR (f0 :: body) rep (a ++ c :: rest)
        = a ++ c :: replaceR (f0 :: body) rep rest := by
  have hfind : ∀ x ∈ f0 :: body, x ≠ c := by
    intro x hx
    rcases List.mem_cons.mp hx with e | hx
    · subst e; exact Ne.symm hc0
    · exact hcb x hx
  intro a
  induction a with
  | nil =>
    intro _
    show (if (f0 :: body).isPrefixOf (c :: replaceR (f0 :: body) rep rest) = true
      then _ else _) = _
    rw [isPrefixOf_cons_ne f0 c body _ hc0]
    rfl
  | cons x a ih =>
    intro h
    obtain ⟨h1, h2⟩ := hasInfix_false_cons _ x a h
    show (if (f0 :: body).isPrefixOf (x :: replaceR (f0 :: body) rep (a ++ c :: rest)) = true
      then rep ++ (x :: replaceR (f0 :: body) rep (a ++ c :: rest)).drop (f0 :: body).length
      else x :: replaceR (f0 :: body) rep (a ++ c :: rest)) = _
    rw [ih h2]
    have : (f0 :: body).isPrefixOf (x :: (a ++ c :: replaceR (f0 :: body) rep rest)) = false :=
      isPrefixOf_barrier_false (f0 :: body) (x :: a) _ c hfind h1
    rw [this]
    rfl

/-- A text in which `find` does not occur, followed by a character that is not in `find`, is
copied together with that character. -/
theorem replace_barrier (f0 : Char) (body rep a rest : Str) (c : Char)
    (hinf : hasInfix (f0 :: body) a = false) (hc0 : c ≠ f0) (hcb : ∀ x ∈ body, x ≠ c) :
    replace (a ++ c :: rest) (f0 :: body) rep = a ++ c :: replace rest (f0 :: body) rep := by
  rw [replace_eq _ _ _ (List.cons_ne_nil _ _), replace_eq _ _ _ (List.cons_ne_nil _ _)]
  split
  · exact replaceL_barrier f0 body rep rest c hc0 hcb a hinf
  · exact replaceR_barrier f0 body rep rest c hc0 hcb a hinf

/-- A pattern of characters that `html_entities` copies, none of them a character of an
entity, starts the escaped text exactly when it starts the text. -/
theorem isPrefixOf_html_entities (pat : Str) (hp : ∀ c ∈ pat, needsEntity c = false) :
    ∀ s : Str, pat.isPrefixOf (html_entities s) = pat.isPrefixOf s := by
  induction pat with
  | nil => intro s; simp [List.isPrefixOf]
  | cons q qs ih =>
    intro s
    have hq := hp q (List.mem_cons_self q qs)
    cases s with
    | nil => rfl
    | cons c cs =>
      by_cases hc : needsEntity c = true
      · have h1 : q ≠ '&' := fun e => by subst e; exact absurd hq (by decide)
        have h2 : q ≠ c := fun e => by subst e; rw [hc] at hq; exact absurd hq (by decide)
        rw [html_entities_cons_entity c cs hc, isPrefixOf_cons_ne q '&' qs _ (Ne.symm h1),
          isPrefixOf_cons_ne q c qs _ (Ne.symm h2)]
      · rw [html_entities_cons_plain c cs hc]
        simp only [List.isPrefixOf]
        rw [ih (fun x hx => hp x (List.mem_cons_of_mem q hx)) cs]

/-- Such a pattern occurs in the escaped text exactly when it occurs in the text. -/
theorem hasInfix_html_entities (p0 : Char) (ps : Str)
    (hp : ∀ c ∈ p0 :: ps, needsEntity c = false) (h0 : p0 ≠ '#') (h1 : p0 ≠ ';')
    (h2 : isdigit p0 = false) :
    ∀ s : Str, hasInfix (p0 :: ps) (html_entities s) = hasInfix (p0 :: ps) s := by
  intro s
  induction s with
  | nil => rfl
  | cons c cs ih =>
    have hpre := isPrefixOf_html_entities (p0 :: ps) hp (c :: cs)
    by_cases hc : needsEntity c = true
    · have hrun : ∀ x ∈ '&' :: '#' :: (natToStr c.toNat ++ [';']), x ≠ p0 := by
        have hp0 := hp p0 (List.mem_cons_self p0 ps)
        intro x hx
        rcases List.mem_cons.mp hx with e | hx
        · subst e; intro e; subst e; exact absurd hp0 (by decide)
        · rcases List.mem_cons.mp hx with e | hx
          · subst e; exact Ne.symm h0
          · rcases List.mem_append.mp hx with hx | hx
            · exact isdigit_ne x p0 (natToStr_isdigit _ x hx) h2
            · rw [List.mem_singleton] at hx; subst hx; exact Ne.symm h1
      have hne : c ≠ p0 := fun e => by
        subst e
        rw [hp c (List.mem_cons_self c ps)] at hc
        exact absurd hc (by decide)
      rw [html_entities_cons_entity c cs hc,
        show '&' :: '#' :: (natToStr c.toNat ++ ';' :: html_entities cs)
          = ('&' :: '#' :: (natToStr c.toNat ++ [';'])) ++ html_entities cs by simp,
        hasInfix_skip p0 ps _ _ hrun, ih, hasInfix_cons, isPrefixOf_cons_ne p0 c ps cs hne]
      rfl
    · rw [hasInfix_cons, ← hpre, html_entities_cons_plain c cs hc, hasInfix_cons, ih]

/-- An occurrence of `find` at the head of the text, in the form in which the placeholders
stand in the templates. -/
theorem replace_match2 (f0 f1 : Char) (body rep rest : Str) (hb : ∀ c ∈ f1 :: body, c ≠ f0) :
    replace (f0 :: f1 :: (body ++ rest)) (f0 :: f1 :: body) rep
      = rep ++ replace rest (f0 :: f1 :: body) rep :=
  replace_match f0 (f1 :: body) rep rest hb

/-- The four `replace` calls of `AsyncWiFiSettingsString::html()`, on replacement texts in
which no placeholder that is filled later occurs. -/
theorem stringHtml_steps (En Ev Ei El : Str)
    (hnv : hasInfix "{value}".toList En = false) (hni : hasInfix "{init}".toList En = false)
    (hnl : hasInfix "{label}".toList En = false) (hvi : hasInfix "{init}".toList Ev = false)
    (hvl : hasInfix "{label}".toList Ev = false) (hil : hasInfix "{label}".toList Ei = false) :
    replace
      (replace
        (replace
          (replace
            "<p><label>{label}:<br><input name='{name}' value='{value}' placeholder='{init}'></label>".toList
            "{name}".toList En)
          "{value}".toList Ev)
        "{init}".toList Ei)
      "{label}".toList El
    =
      "<p><label>".toList ++ (El ++ (":<br><input name='".toList ++ (En ++ (Char.ofNat 39 :: (" value='".toList ++ (Ev ++
      (Char.ofNat 39 :: (" placeholder='".toList ++ (Ei ++ (Char.ofNat 39 :: ("></label>".toList))))))))))) := by
  have hname : "{name}".toList = Char.ofNat 123 :: 'n' :: "ame\x7d".toList := rfl
  have hvalue : "{value}".toList = Char.ofNat 123 :: 'v' :: "alue\x7d".toList := rfl
  have hinit : "{init}".toList = Char.ofNat 123 :: 'i' :: "nit\x7d".toList := rfl
  have hlabel : "{label}".toList = Char.ofNat 123 :: 'l' :: "abel\x7d".toList := rfl
  have knv : hasInfix (Char.ofNat 123 :: 'v' :: "alue\x7d".toList) En = false := hnv
  have kni : hasInfix (Char.ofNat 123 :: 'i' :: "nit\x7d".toList) En = false := hni
  have knl : hasInfix (Char.ofNat 123 :: 'l' :: "abel\x7d".toList) En = false := hnl
  have kvi : hasInfix (Char.ofNat 123 :: 'i' :: "nit\x7d".toList) Ev = false := hvi
  have kvl : hasInfix (Char.ofNat 123 :: 'l' :: "abel\x7d".toList) Ev = false := hvl
  have kil : hasInfix (Char.ofNat 123 :: 'l' :: "abel\x7d".toList) Ei = false := hil
  have hT :
      "<p><label>{label}:<br><input name='{name}' value='{value}' placeholder='{init}'></label>".toList
      =
        "<p><label>".toList ++ (Char.ofNat 123 :: ('l' :: ("abel\x7d:<br><input name='".toList ++ (Char.ofNat 123 :: ('n' ::
        ("ame\x7d".toList ++ (Char.ofNat 39 :: (" value='".toList ++ (Char.ofNat 123 :: ('v' ::
        ("alue\x7d".toList ++ (Char.ofNat 39 :: (" placeholder='".toList ++ (Char.ofNat 123 :: ('i' ::
        ("nit\x7d".toList ++ (Char.ofNat 39 :: ("></label>".toList)))))))))))))))))) := rfl
  have h1 : replace
      "<p><label>{label}:<br><input name='{name}' value='{value}' placeholder='{init}'></label>".toList
      "{name}".toList En
      =
        "<p><label>".toList ++ (Char.ofNat 123 :: ('l' :: ("abel\x7d:<br><input name='".toList ++ (En ++ (Char.ofNat 39 ::
        (" value='".toList ++ (Char.ofNat 123 :: ('v' :: ("alue\x7d".toList ++ (Char.ofNat 39 ::
        (" placeholder='".toList ++ (Char.ofNat 123 :: ('i' :: ("nit\x7d".toList ++ (Char.ofNat 39 ::
        ("></label>".toList)))))))))))))))) := by
    rw [hT, hname, replace_skip _ _ _ _ _ (by decide),
      replace_near _ _ _ _ _ _ _ (by decide) (by decide),
      replace_skip _ _ _ _ _ (by decide), replace_match2 _ _ _ _ _ (by decide),
      replace_cons_ne _ _ _ _ _ (by decide), replace_skip _ _ _ _ _ (by decide),
      replace_near _ _ _ _ _ _ _ (by decide) (by decide),
      replace_skip _ _ _ _ _ (by decide), replace_cons_ne _ _ _ _ _ (by decide),
      replace_skip _ _ _ _ _ (by decide),
      replace_near _ _ _ _ _ _ _ (by decide) (by decide),
      replace_skip _ _ _ _ _ (by decide), replace_cons_ne _ _ _ _ _ (by decide),
      replace_none _ _ _ _ (by decide)]
  have h2 : replace
      (
        "<p><label>".toList ++ (Char.ofNat 123 :: ('l' :: ("abel\x7d:<br><input name='".toList ++ (En ++ (Char.ofNat 39 ::
        (" value='".toList ++ (Char.ofNat 123 :: ('v' :: ("alue\x7d".toList ++ (Char.ofNat 39 ::
        (" placeholder='".toList ++ (Char.ofNat 123 :: ('i' :: ("nit\x7d".toList ++ (Char.ofNat 39 ::
        ("></label>".toList)))))))))))))))))
      "{value}".toList Ev
      =
        "<p><label>".toList ++ (Char.ofNat 123 :: ('l' :: ("abel\x7d:<br><input name='".toList ++ (En ++ (Char.ofNat 39 ::
        (" value='".toList ++ (Ev ++ (Char.ofNat 39 :: (" placeholder='".toList ++ (Char.ofNat 123 :: ('i' ::
        ("nit\x7d".toList ++ (Char.ofNat 39 :: ("></label>".toList)))))))))))))) := by
    rw [hvalue, replace_skip _ _ _ _ _ (by decide),
      replace_near _ _ _ _ _ _ _ (by decide) (by decide),
      replace_skip _ _ _ _ _ (by decide),
      replace_barrier _ _ _ _ _ _ knv (by decide) (by decide),
      replace_skip _ _ _ _ _ (by decide), replace_match2 _ _ _ _ _ (by decide),
      replace_cons_ne _ _ _ _ _ (by decide), replace_skip _ _ _ _ _ (by decide),
      replace_near _ _ _ _ _ _ _ (by decide) (by decide),
      replace_skip _ _ _ _ _ (by decide), replace_cons_ne _ _ _ _ _ (by decide),
      replace_none _ _ _ _ (by decide)]
  have h3 : replace
      (
        "<p><label>".toList ++ (Char.ofNat 123 :: ('l' :: ("abel\x7d:<br><input name='".toList ++ (En ++ (Char.ofNat 39 ::
        (" value='".toList ++ (Ev ++ (Char.ofNat 39 :: (" placeholder='".toList ++ (Char.ofNat 123 :: ('i' ::
        ("nit\x7d".toList ++ (Char.ofNat 39 :: ("></label>".toList)))))))))))))))
      "{init}".toList Ei
      =
        "<p><label>".toList ++ (Char.ofNat 123 :: ('l' :: ("abel\x7d".toList ++ (":<br><input name='".toList ++ (En ++
        (Char.ofNat 39 :: (" value='".toList ++ (Ev ++ (Char.ofNat 39 :: (" placeholder='".toList ++ (Ei ++
        (Char.ofNat 39 :: ("></label>".toList))))))))))))) := by
    rw [hinit, replace_skip _ _ _ _ _ (by decide),
      replace_near _ _ _ _ _ _ _ (by decide) (by decide),
      replace_skip _ _ _ _ _ (by decide),
      replace_barrier _ _ _ _ _ _ kni (by decide) (by decide),
      replace_skip _ _ _ _ _ (by decide),
      replace_barrier _ _ _ _ _ _ kvi (by decide) (by decide),
      replace_skip _ _ _ _ _ (by decide), replace_match2 _ _ _ _ _ (by decide),
      replace_cons_ne _ _ _ _ _ (by decide), replace_none _ _ _ _ (by decide)]
    rfl
  rw [h1, h2, h3, hlabel, replace_skip _ _ _ _ _ (by decide),
    replace_match2 _ _ _ _ _ (by decide), replace_skip _ _ _ _ _ (by decide),
    replace_barrier _ _ _ _ _ _ knl (by decide) (by decide),
    replace_skip _ _ _ _ _ (by decide),
    replace_barrier _ _ _ _ _ _ kvl (by decide) (by decide),
    replace_skip _ _ _ _ _ (by decide),
    replace_barrier _ _ _ _ _ _ kil (by decide) (by decide),
    replace_none _ _ _ _ (by decide)]

/-- C12, as the claim states it, fails: the name of `placeholderNameParam` is the text
`{value}`, which `html_entities` leaves as it is and the later `replace` of the value fills:
the attribute `name` shows the value `x`, not the name. -/
theorem string_html_counterexample :
    stringHtml placeholderNameParam ≠ stringHtmlSpec placeholderNameParam ∧
    stringHtml placeholderNameParam
      = "<p><label>L:<br><input name='x' value='x' placeholder='d'></label>".toList ∧
    stringHtmlSpec placeholderNameParam
      = "<p><label>L:<br><input name='{value}' value='x' placeholder='d'></label>".toList := by
  decide

/-- C12, amended: for every String parameter in which no placeholder that is filled later
occurs in a field filled earlier (neither `{value}`, `{init}` nor `{label}` in the name,
neither `{init}` nor `{label}` in the value, no `{label}` in the default), `html()` is the
markup in which each attribute holds the escaped content of its own field. -/
theorem string_html_fields (p : Param)
    (hnv : hasInfix "{value}".toList p.name = false)
    (hni : hasInfix "{init}".toList p.name = false)
    (hnl : hasInfix "{label}".toList p.name = false)
    (hvi : hasInfix "{init}".toList p.value = false)
    (hvl : hasInfix "{label}".toList p.value = false)
    (hil : hasInfix "{label}".toList p.init = false) :
    stringHtml p = stringHtmlSpec p := by
  have hvalue : "{value}".toList = Char.ofNat 123 :: 'v' :: "alue\x7d".toList := rfl
  have hinit : "{init}".toList = Char.ofNat 123 :: 'i' :: "nit\x7d".toList := rfl
  have hlabel : "{label}".toList = Char.ofNat 123 :: 'l' :: "abel\x7d".toList := rfl
  have tv : ∀ s : Str, hasInfix "{value}".toList s = false →
      hasInfix "{value}".toList (html_entities s) = false := by
    intro s h
    rw [hvalue, hasInfix_html_entities _ _ (by decide) (by decide) (by decide) (by decide)]
    exact h
  have ti : ∀ s : Str, hasInfix "{init}".toList s = false →
      hasInfix "{init}".toList (html_entities s) = false := by
    intro s h
    rw [hinit, hasInfix_html_entities _ _ (by decide) (by decide) (by decide) (by decide)]
    exact h
  have tl : ∀ s : Str, hasInfix "{label}".toList s = false →
      hasInfix "{label}".toList (html_entities s) = false := by
    intro s h
    rw [hlabel, hasInfix_html_entities _ _ (by decide) (by decide) (by decide) (by decide)]
    exact h
  have q1 : "' value='".toList = Char.ofNat 39 :: " value='".toList := rfl
  have q2 : "' placeholder='".toList = Char.ofNat 39 :: " placeholder='".toList := rfl
  have q3 : "'></label>".toList = Char.ofNat 39 :: "></label>".toList := rfl
  unfold stringHtml stringHtmlSpec
  rw [stringHtml_steps _ _ _ _ (tv _ hnv) (ti _ hni) (tl _ hnl) (ti _ hvi) (tl _ hvl)
    (tl _ hil), q1, q2, q3]
  simp only [List.append_assoc, List.cons_append]

/-- C12, amended, at the parameter `deviceName` holding `Lab-1`. -/
theorem string_html_fields_witness :
    stringHtml { deviceNameParam with value := "Lab-1".toList }
      = "<p><label>Device&#32;Name:<br><input name='deviceName' value='Lab-1' placeholder=''></label>".toList :=
  (string_html_fields { deviceNameParam with value := "Lab-1".toList }
    (by decide) (by decide) (by decide) (by decide) (by decide) (by decide)).trans (by decide)

end AsyncWiFiSettings
